import Mathlib

/-!
Verification of the natural-language specification of the AIT-DSN CFDP
Class-2 (acknowledged) receiver and the SLE PDU type definitions.

The repository sources available are the receiver's unit test
(`ait/dsn/cfdp/test/receiver_nak_test.py`) and the SLE PDU declarations
(`bliss/sle/pdus/common.py`, `bliss/sle/pdus/raf.py`).  The receiver
implementation itself (`ait.dsn.cfdp.machines.Receiver2`, its gap tracker
and file assembler) is not among the sources, so those components are
modelled from the specification text (sections 3, 4.1, 4.2 and 4.4 of the
spec); the SLE PDU types are translated directly from the python sources.
-/

namespace Cfdp

/-- Modelled from the spec: the gap tracker of section 4.1 (the source
`ait.dsn.cfdp` gap-tracking code is not under the provided sources).  It
keeps the ordered set of still-missing half-open byte ranges, an optional
pinned upper bound, and the reception high-water mark used while the
upper bound is unknown. -/
structure GapTracker where
  gaps : List (Nat × Nat)
  upper_bound : Option Nat
  high_water : Nat
deriving DecidableEq

/-- Modelled from the spec: `init(upper_bound | unknown)` - with a bound `f`
the gap set becomes the single range `[0, f)` (empty when `f = 0`), otherwise
the set is empty and the bound is not yet pinned. -/
def init : Option Nat → GapTracker
  | none => ⟨[], none, 0⟩
  | some f => ⟨if f = 0 then [] else [(0, f)], some f, 0⟩

/-- The pieces of the single half-open range `iv` that lie outside `[s, e)`. -/
def subtractOne (iv : Nat × Nat) (s e : Nat) : List (Nat × Nat) :=
  (if iv.1 < min iv.2 s then [(iv.1, min iv.2 s)] else []) ++
  (if max iv.1 e < iv.2 then [(max iv.1 e, iv.2)] else [])

/-- Pointwise subtraction of `[s, e)` from every range of a gap list. -/
def subtractRange (gs : List (Nat × Nat)) (s e : Nat) : List (Nat × Nat) :=
  gs.flatMap (fun iv => subtractOne iv s e)

/-- The pieces of the ranges of a gap list lying below `f` (used when an
upper bound is pinned: any portion of existing ranges at or above `f` is
truncated). -/
def truncateTo (gs : List (Nat × Nat)) (f : Nat) : List (Nat × Nat) :=
  gs.flatMap (fun iv => if iv.1 < min iv.2 f then [(iv.1, min iv.2 f)] else [])

/-- Modelled from the spec: `mark_received(start, end)` where `start < end`
subtracts `[start, end)` from the gap set; `start == end` is a no-op.  While
the upper bound is unknown, a new gap is declared between the reception
high-water mark and `start`, and the high-water mark advances to
`max(high_water, end)`. -/
def mark_received (g : GapTracker) (s e : Nat) : GapTracker :=
  if s < e then
    match g.upper_bound with
    | some _ => { g with gaps := subtractRange g.gaps s e }
    | none =>
        let base := if g.high_water < s then g.gaps ++ [(g.high_water, s)] else g.gaps
        { g with gaps := subtractRange base s e, high_water := max g.high_water e }
  else g

/-- Modelled from the spec: `set_upper_bound(f)` pins the bound and truncates
any portion of existing ranges at or above `f`; when the bound was unknown
and the reception high-water mark is below `f`, the final gap extends from
the high-water mark to `f`.  Idempotent when called with the same value. -/
def set_upper_bound (g : GapTracker) (f : Nat) : GapTracker :=
  match g.upper_bound with
  | some _ => { g with gaps := truncateTo g.gaps f, upper_bound := some f }
  | none =>
      { gaps := truncateTo g.gaps f ++ (if g.high_water < f then [(g.high_water, f)] else [])
        upper_bound := some f
        high_water := g.high_water }

/-- Modelled from the spec: `missing()` returns the ordered list of gaps. -/
def missing (g : GapTracker) : List (Nat × Nat) := g.gaps

/-- The reference bound of the gap tracker: the pinned upper bound when
known, otherwise the reception high-water mark. -/
def bound (g : GapTracker) : Nat := g.upper_bound.getD g.high_water

/-- Modelled from the spec: `is_complete()` is true iff the upper bound is
known and the gap set is empty. -/
def is_complete (g : GapTracker) : Bool := g.upper_bound.isSome && g.gaps.isEmpty

/-- Modelled from the spec: the assembler's `write(offset, bytes)` - a sparse
write of `data` at byte offset `off`; the file is a map from byte offset to
byte value, unwritten positions reading as zero. -/
def write (file : Nat → Nat) (off : Nat) (data : List Nat) : Nat → Nat :=
  fun i => if off ≤ i ∧ i < off + data.length then data.getD (i - off) 0 else file i

/-- One 32-bit big-endian word built from four bytes. -/
def word4 (b0 b1 b2 b3 : Nat) : Nat := ((b0 * 256 + b1) * 256 + b2) * 256 + b3

/-- Modelled from the spec: the CFDP modular checksum - the 32-bit sum of
the big-endian words of the file data, the final word zero-padded. -/
def calc_checksum : List Nat → Nat
  | b0 :: b1 :: b2 :: b3 :: rest => (word4 b0 b1 b2 b3 + calc_checksum rest) % 4294967296
  | [b0, b1, b2] => word4 b0 b1 b2 0
  | [b0, b1] => word4 b0 b1 0 0
  | [b0] => word4 b0 0 0 0
  | [] => 0

/-- Condition codes handled by the receiver (spec section 7; the source
enumeration `ait.dsn.cfdp.primitives.ConditionCode` is imported by the
test but not among the provided sources). -/
inductive ConditionCode
  | NO_ERROR
  | POSITIVE_ACK_LIMIT_REACHED
  | NAK_LIMIT_REACHED
  | INACTIVITY_DETECTED
  | FILE_CHECKSUM_FAILURE
  | FILE_SIZE_ERROR
  | FILESTORE_REJECTION
  | CANCEL_REQUEST_RECEIVED
deriving DecidableEq

/-- The Finished PDU's delivery code. -/
inductive DeliveryCode
  | COMPLETE
  | INCOMPLETE
deriving DecidableEq

/-- Transaction lifecycle states S1..S5 of spec section 3. -/
inductive MachineState
  | S1
  | S2
  | S3
  | S4
  | S5
deriving DecidableEq

/-- Outbound PDUs the modelled receiver emits (spec section 3; the model
follows the transitions of section 4.4, which emit NAK and Finished). -/
inductive OutPdu
  | NAK (start_of_scope end_of_scope : Nat) (segment_requests : List (Nat × Nat))
  | Finished (condition_code : ConditionCode) (delivery_code : DeliveryCode)
deriving DecidableEq

/-- Inbound events of spec section 4.4, named as in the source test's
`ait.dsn.cfdp.events.Event`.  Each carries the PDU fields the receiver
consumes (metadata paths are elided: they only name filesystem locations).
The inactivity and finished-ack timers and suspend/resume/cancel are not
modelled; no claim depends on them. -/
inductive Event
  | E10_RECEIVED_METADATA_PDU (file_size : Nat)
  | E11_RECEIVED_FILEDATA_PDU (segment_offset : Nat) (data : List Nat)
  | E12_RECEIVED_EOF_NO_ERROR_PDU (file_checksum : Nat) (file_size : Nat)
  | E13_RECEIVED_EOF_ERROR_PDU (condition_code : ConditionCode)
  | E14_RECEIVED_ACK_FIN_PDU
  | NAK_TIMER_EXPIRED
deriving DecidableEq

/-- Modelled from the spec: the Class-2 receiver (`Receiver2` in the source
test, whose implementation is not among the provided sources).  The temp
file is the sparse byte map `temp`; `dest_file` is the promoted destination
file's contents once it exists; `visited` records the lifecycle states
entered, in order; `emitted` records the outbound PDUs, in order. -/
structure Receiver2 where
  state : MachineState
  visited : List MachineState
  gap : GapTracker
  temp_open : Bool
  temp : Nat → Nat
  dest_file : Option (List Nat)
  meta_received : Bool
  meta_file_size : Nat
  buffered_filedata : List (Nat × List Nat)
  stashed_eof : Option (Nat × Nat)
  stashed_eof_error : Option ConditionCode
  eof_received : Bool
  eof_checksum : Nat
  eof_file_size : Nat
  nak_count : Nat
  nak_limit : Nat
  fault : Option ConditionCode
  emitted : List OutPdu

/-- Enter a lifecycle state, recording it in the visited trace. -/
def enter (r : Receiver2) (s : MachineState) : Receiver2 :=
  { r with state := s, visited := r.visited ++ [s] }

/-- Modelled from the spec: the fault path of section 4.4 at the default
handler `NOTICE_OF_CANCELLATION` (spec scenario 6: default CANCEL): discard
the temp file, emit Finished with `INCOMPLETE` and the fault's condition
code, transition to S4 to await ACK. -/
def raiseFault (r : Receiver2) (c : ConditionCode) : Receiver2 :=
  enter { r with fault := some c
                 temp_open := false
                 temp := fun _ => 0
                 emitted := r.emitted ++ [.Finished c .INCOMPLETE] } .S4

/-- Modelled from the spec: entering S3 (AWAITING_COMPLETION) immediately
finalizes: truncate to `eof_file_size`, compare the CFDP checksum with
`eof_checksum`; on success promote to the destination and emit
Finished(NO_ERROR, COMPLETE) and go to S4; on mismatch raise
`FILE_CHECKSUM_FAILURE`. -/
def enterS3 (r : Receiver2) : Receiver2 :=
  let r1 := enter r .S3
  let contents := (List.range r1.eof_file_size).map r1.temp
  if calc_checksum contents = r1.eof_checksum then
    enter { r1 with dest_file := some contents
                    temp_open := false
                    temp := fun _ => 0
                    emitted := r1.emitted ++ [.Finished .NO_ERROR .COMPLETE] } .S4
  else raiseFault r1 .FILE_CHECKSUM_FAILURE

/-- Modelled from the spec: S2 handling of E11 - mark the segment received,
write it to the assembler; a segment ending beyond a known upper bound
raises `FILE_SIZE_ERROR` (section 4.1 edge case); if the tracker transitions
from non-empty to empty and EOF has been seen, go to S3. -/
def applyFileData (r : Receiver2) (off : Nat) (data : List Nat) : Receiver2 :=
  let gNew := mark_received r.gap off (off + data.length)
  let r1 := { r with gap := gNew, temp := write r.temp off data }
  let oversize : Bool :=
    match r.gap.upper_bound with
    | some f => decide (f < off + data.length)
    | none => false
  if oversize then raiseFault r1 .FILE_SIZE_ERROR
  else if gNew.gaps = [] ∧ r.gap.gaps ≠ [] ∧ r.eof_received = true then enterS3 r1
  else r1

/-- Modelled from the spec: S2 handling of E12 - record `eof_checksum` and
`eof_file_size`, pin the gap tracker's upper bound, start the NAK timer;
if the gap set is then empty, go to S3. -/
def applyEof (r : Receiver2) (checksum file_size : Nat) : Receiver2 :=
  let g := set_upper_bound r.gap file_size
  let r1 := { r with eof_received := true
                     eof_checksum := checksum
                     eof_file_size := file_size
                     gap := g }
  if g.gaps = [] then enterS3 r1 else r1

/-- Modelled from the spec: S2 handling of the NAK timer - if the gap set is
non-empty, emit a NAK whose `segment_requests` is the current gap list and
increment `nak_count`; if `nak_count > nak_limit`, raise
`NAK_LIMIT_REACHED`. -/
def applyNakTimer (r : Receiver2) : Receiver2 :=
  if r.gap.gaps = [] then r
  else
    let r1 := { r with emitted := r.emitted ++ [.NAK 0 (bound r.gap) (missing r.gap)]
                       nak_count := r.nak_count + 1 }
    if r1.nak_limit < r1.nak_count then raiseFault r1 .NAK_LIMIT_REACHED else r1

/-- Modelled from the spec: S1 handling of E10 - install metadata, open the
assembler, initialize the gap tracker with the file size (file size 0 means
unbounded), go to S2, then replay any buffered out-of-order file-data and
any stashed EOF. -/
def applyMetadata (r : Receiver2) (file_size : Nat) : Receiver2 :=
  let r1 := { r with meta_received := true
                     meta_file_size := file_size
                     temp_open := true
                     temp := fun _ => 0
                     gap := if file_size = 0 then init none else init (some file_size)
                     buffered_filedata := []
                     stashed_eof := none
                     stashed_eof_error := none }
  let r2 := enter r1 .S2
  let r3 := r.buffered_filedata.foldl
    (fun acc p => if acc.state = .S2 then applyFileData acc p.1 p.2 else acc) r2
  match r.stashed_eof_error, r.stashed_eof with
  | some c, _ => if r3.state = .S2 then raiseFault r3 c else r3
  | none, some p => if r3.state = .S2 then applyEof r3 p.1 p.2 else r3
  | none, none => r3

/-- Modelled from the spec: the receiver's event dispatch (section 4.4,
ACKNOWLEDGED mode).  S5 is terminal and ignores all further events; events
a state does not handle are ignored. -/
def update_state (r : Receiver2) (ev : Event) : Receiver2 :=
  match r.state, ev with
  | .S1, .E10_RECEIVED_METADATA_PDU f => applyMetadata r f
  | .S1, .E11_RECEIVED_FILEDATA_PDU off data =>
      { r with buffered_filedata := r.buffered_filedata ++ [(off, data)] }
  | .S1, .E12_RECEIVED_EOF_NO_ERROR_PDU c f => { r with stashed_eof := some (c, f) }
  | .S1, .E13_RECEIVED_EOF_ERROR_PDU c => { r with stashed_eof_error := some c }
  | .S2, .E11_RECEIVED_FILEDATA_PDU off data => applyFileData r off data
  | .S2, .E12_RECEIVED_EOF_NO_ERROR_PDU c f => applyEof r c f
  | .S2, .E13_RECEIVED_EOF_ERROR_PDU c => raiseFault r c
  | .S2, .NAK_TIMER_EXPIRED => applyNakTimer r
  | .S4, .E14_RECEIVED_ACK_FIN_PDU => enter r .S5
  | _, _ => r

/-- The receiver's list of outstanding missing ranges, as the source test
reads it (`receiver.nak_list`). -/
def nak_list (r : Receiver2) : List (Nat × Nat) := missing r.gap

/-- A fresh Class-2 receiver for one transaction, with the configured
`nak_limit` (spec section 6 configuration). -/
def initReceiver (lim : Nat) : Receiver2 :=
  { state := .S1
    visited := [.S1]
    gap := ⟨[], none, 0⟩
    temp_open := false
    temp := fun _ => 0
    dest_file := none
    meta_received := false
    meta_file_size := 0
    buffered_filedata := []
    stashed_eof := none
    stashed_eof_error := none
    eof_received := false
    eof_checksum := 0
    eof_file_size := 0
    nak_count := 0
    nak_limit := lim
    fault := none
    emitted := [] }

/-- Process a sequence of events, one at a time, in arrival order. -/
def runEvents (r : Receiver2) (evs : List Event) : Receiver2 :=
  evs.foldl update_state r

/-- The file-data event delivering one segment. -/
def fdEvent (p : Nat × List Nat) : Event := .E11_RECEIVED_FILEDATA_PDU p.1 p.2

/-- A segment is well-formed for source file `src` when it is non-empty,
lies inside the file, and carries exactly the file's bytes at its offsets. -/
def SegOK (src : List Nat) (seg : Nat × List Nat) : Prop :=
  seg.2 ≠ [] ∧ seg.1 + seg.2.length ≤ src.length ∧
    ∀ i, i < seg.2.length → seg.2.getD i 0 = src.getD (seg.1 + i) 0

/-- Byte `x` is covered by one of the segments. -/
def Covers (segs : List (Nat × List Nat)) (x : Nat) : Prop :=
  ∃ seg ∈ segs, seg.1 ≤ x ∧ x < seg.1 + seg.2.length

/-- Byte `x` lies in one of the ranges of a gap list. -/
def inGaps (gs : List (Nat × Nat)) (x : Nat) : Prop :=
  ∃ p ∈ gs, p.1 ≤ x ∧ x < p.2

instance (src : List Nat) (seg : Nat × List Nat) : Decidable (SegOK src seg) := by
  unfold SegOK
  infer_instance

instance (segs : List (Nat × List Nat)) (x : Nat) : Decidable (Covers segs x) := by
  unfold Covers
  infer_instance

instance (gs : List (Nat × Nat)) (x : Nat) : Decidable (inGaps gs x) := by
  unfold inGaps
  infer_instance

/-- A gap list is ordered above `lo`: every range is non-empty, starts at or
after `lo`, and each subsequent range starts at or after the previous end. -/
def gapsOrdered : Nat → List (Nat × Nat) → Prop
  | _, [] => True
  | lo, p :: rest => lo ≤ p.1 ∧ p.1 < p.2 ∧ gapsOrdered p.2 rest

/-- Applying a list of segments to the assembler in order. -/
def applyAll (base : Nat → Nat) (segs : List (Nat × List Nat)) : Nat → Nat :=
  segs.foldl (fun t p => write t p.1 p.2) base

/-- The slice of `src` at offset `off` of length `len`, as a file-data
payload retransmitted for a NAK range. -/
def sliceOf (src : List Nat) (off len : Nat) : List Nat :=
  (src.drop off).take len

/-- The retransmission events answering a NAK's segment requests with
ordinary file-data PDUs carrying the source file's bytes. -/
def replayEvents (src : List Nat) (reqs : List (Nat × Nat)) : List Event :=
  reqs.map (fun p => .E11_RECEIVED_FILEDATA_PDU p.1 (sliceOf src p.1 (p.2 - p.1)))

/-- The state-machine/gap/assembler portion of the receiver that claim C6
compares across duplicate PDU delivery. -/
def trio (r : Receiver2) : GapTracker × Bool × (Nat → Nat) × MachineState :=
  (r.gap, r.temp_open, r.temp, r.state)

/-- The unit-test scenario's event list: metadata with a known file size,
a list of file-data segments, then EOF(NO_ERROR) with the file's checksum. -/
def scenario (src : List Nat) (segs : List (Nat × List Nat)) : List Event :=
  .E10_RECEIVED_METADATA_PDU src.length ::
    (segs.map fdEvent ++ [.E12_RECEIVED_EOF_NO_ERROR_PDU (calc_checksum src) src.length])

/-- A concrete mid-transaction receiver state used to instantiate the
timer-behaviour claims: in S2 after EOF, one outstanding gap, no NAK sent
yet, and a NAK limit of 2. -/
def sampleReceiver : Receiver2 :=
  { state := .S2
    visited := [.S1, .S2]
    gap := ⟨[(1024, 4096)], some 4096, 0⟩
    temp_open := true
    temp := fun _ => 0
    dest_file := none
    meta_received := true
    meta_file_size := 4096
    buffered_filedata := []
    stashed_eof := none
    stashed_eof_error := none
    eof_received := true
    eof_checksum := 0
    eof_file_size := 4096
    nak_count := 0
    nak_limit := 2
    fault := none
    emitted := [] }

/-- The gap tracker's structural invariant: the gap list is ordered above 0
and every range ends at or below the tracker's reference bound. -/
def GapInv (g : GapTracker) : Prop :=
  gapsOrdered 0 g.gaps ∧ ∀ p ∈ g.gaps, p.2 ≤ bound g

/-- The receiver's invariant between metadata and EOF during a known-size
transaction: state S2, bound pinned to the file size, gap list exactly the
bytes of the file not yet covered by `C`, assembler holding the file's bytes
at all covered offsets, nothing emitted yet. -/
structure MidInv (src : List Nat) (lim : Nat) (C : Nat → Prop) (r : Receiver2) : Prop where
  hstate : r.state = .S2
  hvisited : r.visited = [.S1, .S2]
  hub : r.gap.upper_bound = some src.length
  hsem : ∀ x, inGaps r.gap.gaps x ↔ (x < src.length ∧ ¬ C x)
  hord : gapsOrdered 0 r.gap.gaps
  hends : ∀ p ∈ r.gap.gaps, p.2 ≤ src.length
  htemp : ∀ i, C i → r.temp i = src.getD i 0
  heof : r.eof_received = false
  hemit : r.emitted = []
  hdest : r.dest_file = none
  hnak : r.nak_count = 0
  hlim : r.nak_limit = lim

/-- The receiver's invariant after an EOF that left the gap list non-empty:
as `MidInv` but with the EOF fields recorded. -/
structure PostEofInv (src : List Nat) (lim : Nat) (C : Nat → Prop) (r : Receiver2) : Prop where
  hstate : r.state = .S2
  hub : r.gap.upper_bound = some src.length
  hsem : ∀ x, inGaps r.gap.gaps x ↔ (x < src.length ∧ ¬ C x)
  hord : gapsOrdered 0 r.gap.gaps
  hends : ∀ p ∈ r.gap.gaps, p.2 ≤ src.length
  htemp : ∀ i, C i → r.temp i = src.getD i 0
  heof : r.eof_received = true
  heofck : r.eof_checksum = calc_checksum src
  heofsz : r.eof_file_size = src.length
  hemit : r.emitted = []
  hdest : r.dest_file = none
  hnak : r.nak_count = 0
  hlim : r.nak_limit = lim

/-- What the retransmission argument needs of the receiver before the NAK'd
ranges are replayed as ordinary file-data. -/
structure ReplayPre (src : List Nat) (r : Receiver2) : Prop where
  hstate : r.state = .S2
  hub : r.gap.upper_bound = some src.length
  hord : gapsOrdered 0 r.gap.gaps
  hends : ∀ p ∈ r.gap.gaps, p.2 ≤ src.length
  heof : r.eof_received = true
  heofck : r.eof_checksum = calc_checksum src
  heofsz : r.eof_file_size = src.length
  htemp : ∀ i, i < src.length → ¬ inGaps r.gap.gaps i → r.temp i = src.getD i 0
  hdest : r.dest_file = none

end Cfdp

namespace Sle

/-- Structural abstract syntax of the pyasn1 type declarations of
`bliss/sle/pdus/common.py` and `bliss/sle/pdus/raf.py`: NULL, an INTEGER
with a `ValueRangeConstraint`, an OCTET STRING with a
`ValueSizeConstraint`, an implicitly tagged type (`subtype(implicitTag=
tag.Tag(cls, fmt, num))`), and CHOICE / SEQUENCE component chains carrying
the `NamedType` component names.  Component lists are encoded as cons
chains inside the type so that acceptance is plain structural recursion. -/
inductive Asn1Type
  | nullT
  | integerRange (lo hi : Int)
  | octetStringSize (lo hi : Nat)
  | tagged (cls fmt num : Nat) (t : Asn1Type)
  | choiceNil
  | choiceCons (name : String) (t : Asn1Type) (rest : Asn1Type)
  | seqNil
  | seqCons (name : String) (t : Asn1Type) (rest : Asn1Type)
deriving DecidableEq

/-- Abstract values of the ASN.1 types: NULL, an integer, an octet string
(list of octets), a chosen CHOICE alternative, and SEQUENCE value chains. -/
inductive Asn1Value
  | nullV
  | intV (i : Int)
  | octetsV (bs : List Nat)
  | chosenV (name : String) (v : Asn1Value)
  | seqNilV
  | seqConsV (v : Asn1Value) (rest : Asn1Value)
deriving DecidableEq

/-- A type accepts a value: integers must satisfy the range constraint,
octet strings the size constraint, a tagged type accepts whatever its
underlying type accepts (the implicit tag changes the encoding, not the
value set), a CHOICE accepts a value chosen under the name of one of its
alternatives, and a SEQUENCE accepts a component-wise accepted chain. -/
def accepts : Asn1Type → Asn1Value → Bool
  | .nullT, .nullV => true
  | .integerRange lo hi, .intV i => decide (lo ≤ i) && decide (i ≤ hi)
  | .octetStringSize lo hi, .octetsV bs => decide (lo ≤ bs.length) && decide (bs.length ≤ hi)
  | .tagged _ _ _ t, v => accepts t v
  | .choiceCons n t rest, .chosenV name v =>
      (decide (n = name) && accepts t v) || accepts rest (.chosenV name v)
  | .seqCons _ t rest, .seqConsV v vs => accepts t v && accepts rest vs
  | .seqNil, .seqNilV => true
  | _, _ => false

/-- pyasn1's `tag.tagClassContext` constant (0x80). -/
def tagClassContext : Nat := 128

/-- pyasn1's `tag.tagFormatSimple` constant (0x00). -/
def tagFormatSimple : Nat := 0

/-- pyasn1's `tag.tagFormatConstructed` constant (0x20). -/
def tagFormatConstructed : Nat := 32

/-- common.py: `Credentials` - CHOICE of `unused` NULL (context tag 0) and
`used` OCTET STRING sized 8..256 (context tag 1). -/
def Credentials : Asn1Type :=
  .choiceCons "unused" (.tagged tagClassContext tagFormatSimple 0 .nullT)
    (.choiceCons "used"
      (.tagged tagClassContext tagFormatSimple 1 (.octetStringSize 8 256)) .choiceNil)

/-- common.py: `IntUnsignedShort` - INTEGER with range constraint 0..65535. -/
def IntUnsignedShort : Asn1Type := .integerRange 0 65535

/-- common.py: `InvokeId(IntUnsignedShort)`. -/
def InvokeId : Asn1Type := IntUnsignedShort

/-- common.py lines 224-228: `ReportingCycle` - INTEGER with range
constraint 2..600. -/
def commonReportingCycle : Asn1Type := .integerRange 2 600

/-- raf.py lines 7-11: the redefined `ReportingCycle` - INTEGER with range
constraint 2..600. -/
def rafReportingCycle : Asn1Type := .integerRange 2 600

/-- common.py lines 231-239: `ReportRequestType` - CHOICE of `immediately`
NULL (tag 0), `periodically` ReportingCycle (tag 1), `stop` NULL (tag 2),
with the components referring to common.py's `ReportingCycle`. -/
def commonReportRequestType : Asn1Type :=
  .choiceCons "immediately" (.tagged tagClassContext tagFormatSimple 0 .nullT)
    (.choiceCons "periodically" (.tagged tagClassContext tagFormatSimple 1 commonReportingCycle)
      (.choiceCons "stop" (.tagged tagClassContext tagFormatSimple 2 .nullT) .choiceNil))

/-- raf.py lines 14-22: the redefined `ReportRequestType`, with the
`periodically` component referring to raf.py's `ReportingCycle`. -/
def rafReportRequestType : Asn1Type :=
  .choiceCons "immediately" (.tagged tagClassContext tagFormatSimple 0 .nullT)
    (.choiceCons "periodically" (.tagged tagClassContext tagFormatSimple 1 rafReportingCycle)
      (.choiceCons "stop" (.tagged tagClassContext tagFormatSimple 2 .nullT) .choiceNil))

/-- common.py lines 283-290: `SleStopInvocation` - SEQUENCE of
`invokerCredentials` Credentials and `invokeId` InvokeId. -/
def commonSleStopInvocation : Asn1Type :=
  .seqCons "invokerCredentials" Credentials (.seqCons "invokeId" InvokeId .seqNil)

/-- raf.py lines 143-150: the redefined `SleStopInvocation` - SEQUENCE of
`invokerCredentials` Credentials and `invokeId` InvokeId (both referring,
through `from common import *`, to common.py's definitions). -/
def rafSleStopInvocation : Asn1Type :=
  .seqCons "invokerCredentials" Credentials (.seqCons "invokeId" InvokeId .seqNil)

/-- common.py lines 176-180: `TimeCCSDS` - OCTET STRING with size
constraint exactly 8. -/
def TimeCCSDS : Asn1Type := .octetStringSize 8 8

/-- common.py lines 183-187: `TimeCCSDSpico` - OCTET STRING with size
constraint exactly 10. -/
def TimeCCSDSpico : Asn1Type := .octetStringSize 10 10

/-- common.py lines 190-197: `Time` - CHOICE of `ccsdsFormat` TimeCCSDS
(context tag 0) and `ccsdsPicoFormat` TimeCCSDSpico (context tag 1). -/
def Time : Asn1Type :=
  .choiceCons "ccsdsFormat" (.tagged tagClassContext tagFormatSimple 0 TimeCCSDS)
    (.choiceCons "ccsdsPicoFormat"
      (.tagged tagClassContext tagFormatSimple 1 TimeCCSDSpico) .choiceNil)

/-- common.py lines 200-207: `ConditionalTime` - CHOICE of `undefined` NULL
(context tag 0) and `known` Time (constructed context tag 1). -/
def ConditionalTime : Asn1Type :=
  .choiceCons "undefined" (.tagged tagClassContext tagFormatSimple 0 .nullT)
    (.choiceCons "known" (.tagged tagClassContext tagFormatConstructed 1 Time) .choiceNil)

end Sle

namespace Cfdp

theorem inGaps_nil (x : Nat) : ¬ inGaps [] x := by simp [inGaps]

theorem inGaps_cons (p : Nat × Nat) (l : List (Nat × Nat)) (x : Nat) :
    inGaps (p :: l) x ↔ (p.1 ≤ x ∧ x < p.2) ∨ inGaps l x := by
  simp [inGaps, or_and_right, exists_or]

theorem inGaps_append (a b : List (Nat × Nat)) (x : Nat) :
    inGaps (a ++ b) x ↔ inGaps a x ∨ inGaps b x := by
  simp [inGaps, List.mem_append, or_and_right, exists_or]

theorem inGaps_subtractOne (iv : Nat × Nat) (s e x : Nat) :
    inGaps (subtractOne iv s e) x ↔ (iv.1 ≤ x ∧ x < iv.2) ∧ ¬(s ≤ x ∧ x < e) := by
  simp only [subtractOne, inGaps, List.mem_append]
  split_ifs <;> simp <;> omega

theorem inGaps_subtractRange (gs : List (Nat × Nat)) (s e x : Nat) :
    inGaps (subtractRange gs s e) x ↔ inGaps gs x ∧ ¬(s ≤ x ∧ x < e) := by
  induction gs with
  | nil => simp [subtractRange, inGaps]
  | cons hd tl ih =>
      have : subtractRange (hd :: tl) s e = subtractOne hd s e ++ subtractRange tl s e := by
        simp [subtractRange]
      rw [this, inGaps_append, inGaps_subtractOne, inGaps_cons, ih]
      tauto

theorem subtractOne_mem (iv p : Nat × Nat) (s e : Nat) (h : p ∈ subtractOne iv s e) :
    iv.1 ≤ p.1 ∧ p.1 < p.2 ∧ p.2 ≤ iv.2 := by
  simp only [subtractOne, List.mem_append] at h
  rcases h with h | h <;> split_ifs at h <;> simp_all <;> omega

theorem subtractOne_disjoint (iv p : Nat × Nat) (s e : Nat) (hse : s ≤ e)
    (h : p ∈ subtractOne iv s e) : p.2 ≤ s ∨ e ≤ p.1 := by
  simp only [subtractOne, List.mem_append] at h
  rcases h with h | h <;> split_ifs at h <;> simp_all <;> omega

theorem subtractRange_mem (gs : List (Nat × Nat)) (p : Nat × Nat) (s e : Nat)
    (h : p ∈ subtractRange gs s e) : ∃ iv ∈ gs, iv.1 ≤ p.1 ∧ p.1 < p.2 ∧ p.2 ≤ iv.2 := by
  simp only [subtractRange, List.mem_flatMap] at h
  obtain ⟨iv, hiv, hp⟩ := h
  exact ⟨iv, hiv, subtractOne_mem iv p s e hp⟩

theorem subtractRange_disjoint (gs : List (Nat × Nat)) (p : Nat × Nat) (s e : Nat) (hse : s ≤ e)
    (h : p ∈ subtractRange gs s e) : p.2 ≤ s ∨ e ≤ p.1 := by
  simp only [subtractRange, List.mem_flatMap] at h
  obtain ⟨iv, _, hp⟩ := h
  exact subtractOne_disjoint iv p s e hse hp

theorem truncateTo_mem (gs : List (Nat × Nat)) (p : Nat × Nat) (f : Nat)
    (h : p ∈ truncateTo gs f) : ∃ iv ∈ gs, p.1 = iv.1 ∧ p.1 < p.2 ∧ p.2 ≤ iv.2 ∧ p.2 ≤ f := by
  simp only [truncateTo, List.mem_flatMap] at h
  obtain ⟨iv, hiv, hp⟩ := h
  refine ⟨iv, hiv, ?_⟩
  split_ifs at hp with hc
  · simp only [List.mem_singleton] at hp
    subst hp
    refine ⟨rfl, ?_, ?_, ?_⟩ <;> simp <;> omega
  · simp at hp

theorem subtractOne_eq_self (iv : Nat × Nat) (s e : Nat) (hse : s ≤ e)
    (hne : iv.1 < iv.2) (hdisj : iv.2 ≤ s ∨ e ≤ iv.1) : subtractOne iv s e = [iv] := by
  rcases hdisj with h | h
  · have h1 : min iv.2 s = iv.2 := by omega
    have h2 : ¬ (max iv.1 e < iv.2) := by omega
    simp [subtractOne, h1, h2, hne]
  · have h1 : ¬ (iv.1 < min iv.2 s) := by omega
    have h2 : max iv.1 e = iv.1 := by omega
    simp [subtractOne, h1, h2, hne]

theorem subtractRange_eq_self (gs : List (Nat × Nat)) (s e : Nat) (hse : s ≤ e)
    (h : ∀ p ∈ gs, p.1 < p.2 ∧ (p.2 ≤ s ∨ e ≤ p.1)) : subtractRange gs s e = gs := by
  induction gs with
  | nil => rfl
  | cons hd tl ih =>
      have hhd := h hd (by simp)
      have : subtractRange (hd :: tl) s e = subtractOne hd s e ++ subtractRange tl s e := by
        simp [subtractRange]
      rw [this, subtractOne_eq_self hd s e hse hhd.1 hhd.2,
        ih (fun p hp => h p (by simp [hp]))]
      rfl

theorem subtractRange_idem (gs : List (Nat × Nat)) (s e : Nat) (hse : s ≤ e) :
    subtractRange (subtractRange gs s e) s e = subtractRange gs s e := by
  apply subtractRange_eq_self _ _ _ hse
  intro p hp
  obtain ⟨iv, _, h1⟩ := subtractRange_mem gs p s e hp
  exact ⟨h1.2.1, subtractRange_disjoint gs p s e hse hp⟩

theorem truncateTo_eq_self (gs : List (Nat × Nat)) (f : Nat)
    (h : ∀ p ∈ gs, p.1 < p.2 ∧ p.2 ≤ f) : truncateTo gs f = gs := by
  induction gs with
  | nil => rfl
  | cons hd tl ih =>
      have hhd := h hd (by simp)
      have heq : truncateTo (hd :: tl) f =
          (if hd.1 < min hd.2 f then [(hd.1, min hd.2 f)] else []) ++ truncateTo tl f := by
        simp [truncateTo]
      rw [heq, ih (fun p hp => h p (by simp [hp]))]
      have : min hd.2 f = hd.2 := by omega
      rw [this]
      split_ifs with hc
      · rfl
      · omega

theorem truncateTo_idem (gs : List (Nat × Nat)) (f : Nat) :
    truncateTo (truncateTo gs f) f = truncateTo gs f := by
  apply truncateTo_eq_self
  intro p hp
  obtain ⟨iv, _, h⟩ := truncateTo_mem gs p f hp
  exact ⟨h.2.1, h.2.2.2⟩

end Cfdp

namespace Cfdp

theorem gapsOrdered_mono (lo lo' : Nat) (l : List (Nat × Nat)) (h : lo' ≤ lo)
    (ho : gapsOrdered lo l) : gapsOrdered lo' l := by
  cases l with
  | nil => trivial
  | cons p rest => exact ⟨Nat.le_trans h ho.1, ho.2.1, ho.2.2⟩

theorem gapsOrdered_mem (lo : Nat) (l : List (Nat × Nat)) (ho : gapsOrdered lo l) :
    ∀ p ∈ l, lo ≤ p.1 ∧ p.1 < p.2 := by
  induction l generalizing lo with
  | nil => intro p hp; simp at hp
  | cons hd tl ih =>
      intro p hp
      rcases List.mem_cons.mp hp with h | h
      · subst h; exact ⟨ho.1, ho.2.1⟩
      · have h1 := ih hd.2 ho.2.2 p h
        have h2 : lo ≤ hd.1 := ho.1
        have h3 : hd.1 < hd.2 := ho.2.1
        exact ⟨by omega, h1.2⟩

theorem gapsOrdered_pairwise (lo : Nat) (l : List (Nat × Nat)) (ho : gapsOrdered lo l) :
    List.Pairwise (fun a b => a.2 ≤ b.1) l := by
  induction l generalizing lo with
  | nil => exact List.Pairwise.nil
  | cons hd tl ih =>
      refine List.Pairwise.cons ?_ (ih hd.2 ho.2.2)
      intro p hp
      exact (gapsOrdered_mem hd.2 tl ho.2.2 p hp).1

theorem gapsOrdered_nil_of_empty (l : List (Nat × Nat)) (ho : gapsOrdered 0 l)
    (h : ∀ x, ¬ inGaps l x) : l = [] := by
  cases l with
  | nil => rfl
  | cons hd tl =>
      exfalso
      exact h hd.1 ((inGaps_cons hd tl hd.1).mpr (Or.inl ⟨Nat.le_refl _, ho.2.1⟩))

theorem gapsOrdered_append (lo m : Nat) (xs ys : List (Nat × Nat))
    (hx : gapsOrdered lo xs) (hends : ∀ p ∈ xs, p.2 ≤ m) (hlm : lo ≤ m)
    (hy : gapsOrdered m ys) : gapsOrdered lo (xs ++ ys) := by
  induction xs generalizing lo with
  | nil => exact gapsOrdered_mono m lo ys hlm hy
  | cons hd tl ih =>
      refine ⟨hx.1, hx.2.1, ih hd.2 hx.2.2 (fun p hp => hends p (by simp [hp])) ?_⟩
      exact hends hd (by simp)

theorem gapsOrdered_subtractOne (lo : Nat) (iv : Nat × Nat) (s e : Nat) (hse : s ≤ e)
    (h1 : lo ≤ iv.1) : gapsOrdered lo (subtractOne iv s e) := by
  simp only [subtractOne]
  split_ifs with hc1 hc2 hc2
  · exact ⟨h1, hc1, by omega, hc2, trivial⟩
  · exact ⟨h1, hc1, trivial⟩
  · exact ⟨by omega, hc2, trivial⟩
  · trivial

theorem gapsOrdered_subtractRange (lo : Nat) (gs : List (Nat × Nat)) (s e : Nat) (hse : s ≤ e)
    (ho : gapsOrdered lo gs) : gapsOrdered lo (subtractRange gs s e) := by
  induction gs generalizing lo with
  | nil => trivial
  | cons hd tl ih =>
      have hsplit : subtractRange (hd :: tl) s e = subtractOne hd s e ++ subtractRange tl s e := by
        simp [subtractRange]
      rw [hsplit]
      refine gapsOrdered_append lo hd.2 _ _ (gapsOrdered_subtractOne lo hd s e hse ho.1)
        (fun p hp => (subtractOne_mem hd p s e hp).2.2)
        (by have h1 : lo ≤ hd.1 := ho.1; have h2 : hd.1 < hd.2 := ho.2.1; omega)
        (ih hd.2 ho.2.2)

theorem gapsOrdered_truncateTo (lo : Nat) (gs : List (Nat × Nat)) (f : Nat)
    (ho : gapsOrdered lo gs) : gapsOrdered lo (truncateTo gs f) := by
  induction gs generalizing lo with
  | nil => trivial
  | cons hd tl ih =>
      have hsplit : truncateTo (hd :: tl) f =
          (if hd.1 < min hd.2 f then [(hd.1, min hd.2 f)] else []) ++ truncateTo tl f := by
        simp [truncateTo]
      rw [hsplit]
      refine gapsOrdered_append lo hd.2 _ _ ?_ ?_
        (by have h1 : lo ≤ hd.1 := ho.1; have h2 : hd.1 < hd.2 := ho.2.1; omega)
        (ih hd.2 ho.2.2)
      · split_ifs with hc
        · exact ⟨ho.1, hc, trivial⟩
        · trivial
      · intro p hp
        split_ifs at hp with hc
        · simp only [List.mem_singleton] at hp
          subst hp
          simp
        · simp at hp

theorem mark_received_ub (g : GapTracker) (s e : Nat) :
    (mark_received g s e).upper_bound = g.upper_bound := by
  by_cases hse : s < e
  · cases hub : g.upper_bound <;> simp [mark_received, hse, hub]
  · simp [mark_received, hse]

theorem GapInv_init (ob : Option Nat) : GapInv (init ob) := by
  cases ob with
  | none => exact ⟨trivial, by simp [init]⟩
  | some f =>
      by_cases hf : f = 0
      · exact ⟨by simp [init, hf, gapsOrdered], by simp [init, hf]⟩
      · constructor
        · show gapsOrdered 0 (if f = 0 then [] else [(0, f)])
          simp only [hf, if_false]
          exact ⟨Nat.le_refl _, by omega, trivial⟩
        · intro p hp
          have hp2 : p ∈ if f = 0 then ([] : List (Nat × Nat)) else [(0, f)] := hp
          simp only [hf, if_false, List.mem_singleton] at hp2
          subst hp2
          simp [bound, init, hf]

theorem GapInv_mark (g : GapTracker) (s e : Nat) (h : GapInv g) :
    GapInv (mark_received g s e) := by
  obtain ⟨ho, hb⟩ := h
  by_cases hse : s < e
  · cases hub : g.upper_bound with
    | some f =>
        have hgaps : (mark_received g s e).gaps = subtractRange g.gaps s e := by
          simp [mark_received, hse, hub]
        have hb2 : bound (mark_received g s e) = bound g := by
          have hmub := mark_received_ub g s e
          simp [bound, hmub, hub]
        constructor
        · rw [hgaps]; exact gapsOrdered_subtractRange 0 g.gaps s e (by omega) ho
        · intro p hp
          rw [hgaps] at hp
          obtain ⟨iv, hiv, hle⟩ := subtractRange_mem g.gaps p s e hp
          rw [hb2]
          exact Nat.le_trans hle.2.2 (hb iv hiv)
    | none =>
        have hbg : bound g = g.high_water := by simp [bound, hub]
        have hgaps : (mark_received g s e).gaps =
            subtractRange (if g.high_water < s then g.gaps ++ [(g.high_water, s)] else g.gaps)
              s e := by
          simp [mark_received, hse, hub]
        have hhw : (mark_received g s e).high_water = max g.high_water e := by
          simp [mark_received, hse, hub]
        have hbm : bound (mark_received g s e) = max g.high_water e := by
          have := mark_received_ub g s e
          simp [bound, this, hub, hhw]
        have hbase : gapsOrdered 0
            (if g.high_water < s then g.gaps ++ [(g.high_water, s)] else g.gaps) := by
          split_ifs with hc
          · exact gapsOrdered_append 0 g.high_water g.gaps [(g.high_water, s)] ho
              (fun p hp => by rw [← hbg]; exact hb p hp) (Nat.zero_le _)
              ⟨Nat.le_refl _, hc, trivial⟩
          · exact ho
        constructor
        · rw [hgaps]; exact gapsOrdered_subtractRange 0 _ s e (by omega) hbase
        · intro p hp
          rw [hgaps] at hp
          obtain ⟨iv, hiv, hle⟩ := subtractRange_mem _ p s e hp
          rw [hbm]
          have hivend : iv.2 ≤ max g.high_water e := by
            by_cases hc : g.high_water < s
            · simp [hc] at hiv
              rcases hiv with hiv | hiv
              · have := hb iv hiv; rw [hbg] at this; omega
              · rw [hiv]; simp; omega
            · simp [hc] at hiv
              have := hb iv hiv; rw [hbg] at this; omega
          omega
  · simpa [mark_received, hse] using ⟨ho, hb⟩

theorem GapInv_set_upper_bound (g : GapTracker) (f : Nat) (h : GapInv g) :
    GapInv (set_upper_bound g f) := by
  obtain ⟨ho, hb⟩ := h
  cases hub : g.upper_bound with
  | some f0 =>
      have hgaps : (set_upper_bound g f).gaps = truncateTo g.gaps f := by
        simp [set_upper_bound, hub]
      have hbnd : bound (set_upper_bound g f) = f := by
        simp [set_upper_bound, hub, bound]
      constructor
      · rw [hgaps]; exact gapsOrdered_truncateTo 0 g.gaps f ho
      · intro p hp
        rw [hgaps] at hp
        obtain ⟨iv, _, hle⟩ := truncateTo_mem g.gaps p f hp
        rw [hbnd]
        exact hle.2.2.2
  | none =>
      have hbg : bound g = g.high_water := by simp [bound, hub]
      have hgaps : (set_upper_bound g f).gaps =
          truncateTo g.gaps f ++ (if g.high_water < f then [(g.high_water, f)] else []) := by
        simp [set_upper_bound, hub]
      have hbnd : bound (set_upper_bound g f) = f := by
        simp [set_upper_bound, hub, bound]
      constructor
      · rw [hgaps]
        refine gapsOrdered_append 0 (min g.high_water f) _ _ ?_ ?_ (Nat.zero_le _) ?_
        · exact gapsOrdered_truncateTo 0 g.gaps f ho
        · intro p hp
          obtain ⟨iv, hiv, hle⟩ := truncateTo_mem g.gaps p f hp
          have := hb iv hiv
          rw [hbg] at this
          omega
        · split_ifs with hc
          · exact ⟨by omega, hc, trivial⟩
          · trivial
      · intro p hp
        rw [hgaps] at hp
        rw [hbnd]
        rcases List.mem_append.mp hp with hp | hp
        · exact (truncateTo_mem g.gaps p f hp).choose_spec.2.2.2.2
        · split_ifs at hp with hc
          · simp only [List.mem_singleton] at hp; subst hp; simp
          · simp at hp

end Cfdp

namespace Cfdp

theorem write_idem (t : Nat → Nat) (off : Nat) (d : List Nat) :
    write (write t off d) off d = write t off d := by
  funext i
  simp only [write]
  split_ifs with h
  · rfl
  · simp [write, h]

theorem subtractOne_self (s e : Nat) : subtractOne (s, e) s e = [] := by
  have h1 : ¬ ((s, e).1 < min (s, e).2 s) := by simp
  have h2 : ¬ (max (s, e).1 e < (s, e).2) := by simp
  simp [subtractOne, h1, h2]

theorem mark_received_idem (g : GapTracker) (s e : Nat) :
    mark_received (mark_received g s e) s e = mark_received g s e := by
  by_cases hse : s < e
  · cases hub : g.upper_bound with
    | some f =>
        have h1 : mark_received g s e = { g with gaps := subtractRange g.gaps s e } := by
          simp [mark_received, hse, hub]
        rw [h1]
        have h2 : mark_received { g with gaps := subtractRange g.gaps s e } s e =
            { g with gaps := subtractRange (subtractRange g.gaps s e) s e } := by
          simp [mark_received, hse, hub]
        rw [h2, subtractRange_idem _ _ _ (by omega)]
    | none =>
        set base := if g.high_water < s then g.gaps ++ [(g.high_water, s)] else g.gaps with hbase
        have h1 : mark_received g s e =
            { g with gaps := subtractRange base s e, high_water := max g.high_water e } := by
          simp [mark_received, hse, hub, hbase]
        rw [h1]
        have hnotlt : ¬ (max g.high_water e < s) := by omega
        have h2 : mark_received
            { g with gaps := subtractRange base s e, high_water := max g.high_water e } s e =
            { g with gaps := subtractRange (subtractRange base s e) s e,
                     high_water := max (max g.high_water e) e } := by
          simp [mark_received, hse, hub, hnotlt]
        rw [h2, subtractRange_idem _ _ _ (by omega)]
        have h3 : max (max g.high_water e) e = max g.high_water e := by omega
        rw [h3]
  · simp [mark_received, hse]

theorem set_upper_bound_ub (g : GapTracker) (f : Nat) :
    (set_upper_bound g f).upper_bound = some f := by
  cases hub : g.upper_bound <;> simp [set_upper_bound, hub]

theorem set_upper_bound_gaps_bounds (g : GapTracker) (f : Nat) :
    ∀ p ∈ (set_upper_bound g f).gaps, p.1 < p.2 ∧ p.2 ≤ f := by
  intro p hp
  cases hub : g.upper_bound with
  | some f0 =>
      have : (set_upper_bound g f).gaps = truncateTo g.gaps f := by
        simp [set_upper_bound, hub]
      rw [this] at hp
      obtain ⟨iv, _, h⟩ := truncateTo_mem g.gaps p f hp
      exact ⟨h.2.1, h.2.2.2⟩
  | none =>
      have : (set_upper_bound g f).gaps =
          truncateTo g.gaps f ++ (if g.high_water < f then [(g.high_water, f)] else []) := by
        simp [set_upper_bound, hub]
      rw [this] at hp
      rcases List.mem_append.mp hp with hp | hp
      · obtain ⟨iv, _, h⟩ := truncateTo_mem g.gaps p f hp
        exact ⟨h.2.1, h.2.2.2⟩
      · split_ifs at hp with hc
        · simp only [List.mem_singleton] at hp; subst hp; exact ⟨hc, Nat.le_refl _⟩
        · simp at hp

theorem set_upper_bound_noop (g : GapTracker) (f : Nat) (hub : g.upper_bound = some f)
    (h : ∀ p ∈ g.gaps, p.1 < p.2 ∧ p.2 ≤ f) : set_upper_bound g f = g := by
  have h1 : set_upper_bound g f =
      { g with gaps := truncateTo g.gaps f, upper_bound := some f } := by
    simp [set_upper_bound, hub]
  rw [h1, truncateTo_eq_self g.gaps f h, ← hub]

theorem set_upper_bound_idem (g : GapTracker) (f : Nat) :
    set_upper_bound (set_upper_bound g f) f = set_upper_bound g f := by
  exact set_upper_bound_noop _ f (set_upper_bound_ub g f) (set_upper_bound_gaps_bounds g f)

theorem mark_received_gaps_some (g : GapTracker) (s e f : Nat) (hub : g.upper_bound = some f)
    (hse : s < e) : (mark_received g s e).gaps = subtractRange g.gaps s e := by
  simp [mark_received, hse, hub]

theorem inGaps_mark_some (g : GapTracker) (s e f x : Nat) (hub : g.upper_bound = some f) :
    inGaps (mark_received g s e).gaps x ↔ inGaps g.gaps x ∧ ¬ (s ≤ x ∧ x < e) := by
  by_cases hse : s < e
  · rw [mark_received_gaps_some g s e f hub hse, inGaps_subtractRange]
  · have : mark_received g s e = g := by simp [mark_received, hse]
    rw [this]
    have : ¬ (s ≤ x ∧ x < e) := by omega
    simp [this]

theorem enter_gap (r : Receiver2) (s : MachineState) : (enter r s).gap = r.gap := rfl

theorem enter_state (r : Receiver2) (s : MachineState) : (enter r s).state = s := rfl

theorem raiseFault_gap (r : Receiver2) (c : ConditionCode) : (raiseFault r c).gap = r.gap := rfl

theorem raiseFault_state (r : Receiver2) (c : ConditionCode) :
    (raiseFault r c).state = .S4 := rfl

theorem enterS3_gap (r : Receiver2) : (enterS3 r).gap = r.gap := by
  simp only [enterS3, enter, raiseFault]
  split_ifs <;> rfl

theorem enterS3_state (r : Receiver2) : (enterS3 r).state = .S4 := by
  simp only [enterS3, enter, raiseFault]
  split_ifs <;> rfl

theorem applyFileData_gap (r : Receiver2) (off : Nat) (d : List Nat) :
    (applyFileData r off d).gap = mark_received r.gap off (off + d.length) := by
  simp only [applyFileData]
  split_ifs <;> simp [enterS3_gap, raiseFault_gap]

theorem applyFileData_state (r : Receiver2) (off : Nat) (d : List Nat) :
    (applyFileData r off d).state = r.state ∨ (applyFileData r off d).state = .S4 := by
  simp only [applyFileData]
  split_ifs <;> simp [enterS3_state, raiseFault_state]

theorem applyEof_gap (r : Receiver2) (c f : Nat) :
    (applyEof r c f).gap = set_upper_bound r.gap f := by
  simp only [applyEof]
  split_ifs <;> simp [enterS3_gap]

theorem applyEof_state (r : Receiver2) (c f : Nat) :
    (applyEof r c f).state = r.state ∨ (applyEof r c f).state = .S4 := by
  simp only [applyEof]
  split_ifs <;> simp [enterS3_state]

theorem applyNakTimer_gap (r : Receiver2) : (applyNakTimer r).gap = r.gap := by
  simp only [applyNakTimer]
  split_ifs <;> simp [raiseFault_gap]

theorem applyNakTimer_state (r : Receiver2) :
    (applyNakTimer r).state = r.state ∨ (applyNakTimer r).state = .S4 := by
  simp only [applyNakTimer]
  split_ifs <;> simp [raiseFault_state]

theorem GapInv_fold (l : List (Nat × List Nat)) (r : Receiver2) (h : GapInv r.gap) :
    GapInv ((l.foldl (fun acc p => if acc.state = .S2 then applyFileData acc p.1 p.2 else acc)
      r).gap) := by
  induction l generalizing r with
  | nil => exact h
  | cons hd tl ih =>
      refine ih _ ?_
      by_cases hs : r.state = .S2
      · simp only [hs, if_pos]
        rw [applyFileData_gap]
        exact GapInv_mark _ _ _ h
      · simp only [hs, if_neg, ite_false]
        exact h

theorem applyMetadata_gapinv (r : Receiver2) (f : Nat) :
    GapInv (applyMetadata r f).gap := by
  have hstart : GapInv (if f = 0 then init none else init (some f)) := by
    split_ifs <;> exact GapInv_init _
  have hfold : GapInv ((r.buffered_filedata.foldl
      (fun acc p => if acc.state = .S2 then applyFileData acc p.1 p.2 else acc)
      (enter { r with meta_received := true
                      meta_file_size := f
                      temp_open := true
                      temp := fun _ => 0
                      gap := if f = 0 then init none else init (some f)
                      buffered_filedata := []
                      stashed_eof := none
                      stashed_eof_error := none } .S2)).gap) :=
    GapInv_fold _ _ hstart
  have key : ∀ (e1 : Option ConditionCode) (e2 : Option (Nat × Nat)) (rr : Receiver2),
      GapInv rr.gap →
      GapInv ((match e1, e2 with
        | some c, _ => if rr.state = .S2 then raiseFault rr c else rr
        | none, some p => if rr.state = .S2 then applyEof rr p.1 p.2 else rr
        | none, none => rr) : Receiver2).gap := by
    intro e1 e2 rr h
    cases e1 with
    | some c =>
        split_ifs
        · rw [raiseFault_gap]; exact h
        · exact h
    | none =>
        cases e2 with
        | some p =>
            split_ifs
            · rw [applyEof_gap]; exact GapInv_set_upper_bound _ _ h
            · exact h
        | none => exact h
  exact key r.stashed_eof_error r.stashed_eof _ hfold

theorem GapInv_update (r : Receiver2) (ev : Event) (h : GapInv r.gap) :
    GapInv (update_state r ev).gap := by
  cases hst : r.state <;> cases ev <;>
    simp only [update_state, hst] <;>
    first
    | exact h
    | exact applyMetadata_gapinv r _
    | (rw [applyFileData_gap]; exact GapInv_mark _ _ _ h)
    | (rw [applyEof_gap]; exact GapInv_set_upper_bound _ _ h)
    | (rw [raiseFault_gap]; exact h)
    | (rw [applyNakTimer_gap]; exact h)
    | (rw [enter_gap]; exact h)

theorem GapInv_runEvents (r : Receiver2) (evs : List Event) (h : GapInv r.gap) :
    GapInv (runEvents r evs).gap := by
  induction evs generalizing r with
  | nil => exact h
  | cons hd tl ih =>
      rw [runEvents, List.foldl_cons]
      exact ih (update_state r hd) (GapInv_update r hd h)

theorem GapInv_run (lim : Nat) (evs : List Event) :
    GapInv (runEvents (initReceiver lim) evs).gap :=
  GapInv_runEvents _ evs ⟨trivial, by simp [initReceiver]⟩

end Cfdp

namespace Cfdp

/-- Claim C4: for every sequence of events processed by the receiver, the
gap tracker's `missing()` list (the receiver's `nak_list`) consists of
non-empty ranges, pairwise non-overlapping and sorted by start (each range
ends at or before the next one starts), all contained in `[0, upper_bound)`
(the pinned upper bound, or the reception high-water mark while the bound
is unknown). -/
theorem c4_missing_ranges_wellformed (lim : Nat) (evs : List Event) :
    (∀ p ∈ nak_list (runEvents (initReceiver lim) evs), p.1 < p.2) ∧
    List.Pairwise (fun a b => a.2 ≤ b.1) (nak_list (runEvents (initReceiver lim) evs)) ∧
    (∀ p ∈ nak_list (runEvents (initReceiver lim) evs),
      p.2 ≤ bound (runEvents (initReceiver lim) evs).gap) := by
  obtain ⟨ho, hb⟩ := GapInv_run lim evs
  exact ⟨fun p hp => (gapsOrdered_mem 0 _ ho p hp).2,
    gapsOrdered_pairwise 0 _ ho, hb⟩

/-- Claim C8: `mark_received(v, v)` (start equal to end) is a no-op - the
gap set, the reception high-water mark, and the upper bound are all
unchanged. -/
theorem c8_mark_received_empty_noop (g : GapTracker) (v : Nat) :
    (mark_received g v v).gaps = g.gaps ∧
    (mark_received g v v).high_water = g.high_water ∧
    (mark_received g v v).upper_bound = g.upper_bound := by
  simp [mark_received]

theorem Covers_nil (x : Nat) : ¬ Covers [] x := by simp [Covers]

theorem Covers_cons (seg : Nat × List Nat) (rest : List (Nat × List Nat)) (x : Nat) :
    Covers (seg :: rest) x ↔
      (seg.1 ≤ x ∧ x < seg.1 + seg.2.length) ∨ Covers rest x := by
  simp [Covers, or_and_right, exists_or]

theorem Covers_perm (l1 l2 : List (Nat × List Nat)) (hperm : l1.Perm l2) (x : Nat) :
    Covers l1 x ↔ Covers l2 x := by
  constructor
  · rintro ⟨seg, hs, h⟩; exact ⟨seg, hperm.subset hs, h⟩
  · rintro ⟨seg, hs, h⟩; exact ⟨seg, hperm.symm.subset hs, h⟩

theorem applyAll_nil (base : Nat → Nat) : applyAll base [] = base := rfl

theorem applyAll_cons (base : Nat → Nat) (seg : Nat × List Nat) (rest : List (Nat × List Nat)) :
    applyAll base (seg :: rest) = applyAll (write base seg.1 seg.2) rest := rfl

theorem applyAll_not_covered (base : Nat → Nat) (l : List (Nat × List Nat))
    (x : Nat) (hc : ¬ Covers l x) : applyAll base l x = base x := by
  induction l generalizing base with
  | nil => rfl
  | cons seg rest ih =>
      rw [applyAll_cons]
      have hns : ¬ (seg.1 ≤ x ∧ x < seg.1 + seg.2.length) :=
        fun h => hc ((Covers_cons seg rest x).mpr (Or.inl h))
      have hnr : ¬ Covers rest x :=
        fun h => hc ((Covers_cons seg rest x).mpr (Or.inr h))
      rw [ih _ hnr]
      simp [write, hns]

theorem applyAll_covered (u base : Nat → Nat) (l : List (Nat × List Nat))
    (hag : ∀ seg ∈ l, ∀ i, i < seg.2.length → seg.2.getD i 0 = u (seg.1 + i))
    (x : Nat) (hc : Covers l x) : applyAll base l x = u x := by
  induction l generalizing base with
  | nil => exact absurd hc (Covers_nil x)
  | cons seg rest ih =>
      rw [applyAll_cons]
      by_cases hr : Covers rest x
      · exact ih _ (fun s hs => hag s (by simp [hs])) hr
      · rcases (Covers_cons seg rest x).mp hc with hseg | hseg
        · rw [applyAll_not_covered _ rest x hr]
          have hwx : write base seg.1 seg.2 x = seg.2.getD (x - seg.1) 0 := by
            simp [write, hseg]
          rw [hwx, hag seg (by simp) (x - seg.1) (by omega)]
          congr 1
          omega
        · exact absurd hseg hr

end Cfdp

namespace Cfdp

/-- Claim C5: for every finite set of file-data segments whose underlying
byte content at each offset is fixed (each segment carries the bytes of a
common content map `u` at its offsets), applying the segments to the
assembler in any permutation yields byte-identical final file contents. -/
theorem c5_assembler_order_independent (u base : Nat → Nat)
    (l1 l2 : List (Nat × List Nat))
    (hag : ∀ seg ∈ l1, ∀ i, i < seg.2.length → seg.2.getD i 0 = u (seg.1 + i))
    (hperm : l1.Perm l2) : applyAll base l1 = applyAll base l2 := by
  have hag2 : ∀ seg ∈ l2, ∀ i, i < seg.2.length → seg.2.getD i 0 = u (seg.1 + i) :=
    fun seg hs => hag seg (hperm.symm.subset hs)
  funext x
  by_cases hc : Covers l1 x
  · rw [applyAll_covered u base l1 hag x hc,
      applyAll_covered u base l2 hag2 x ((Covers_perm l1 l2 hperm x).mp hc)]
  · rw [applyAll_not_covered base l1 x hc,
      applyAll_not_covered base l2 x (fun h => hc ((Covers_perm l1 l2 hperm x).mpr h))]

/-- Witness for claim C5: two overlapping segments drawn from the content
map `fun i => i + 5`, applied in both orders. -/
theorem c5_witness :
    (∀ seg ∈ [((0 : Nat), [5, 6]), (1, [6, 7])], ∀ i, i < seg.2.length →
      seg.2.getD i 0 = seg.1 + i + 5) ∧
    ([((0 : Nat), [(5 : Nat), 6]), (1, [6, 7])]).Perm [(1, [6, 7]), (0, [5, 6])] ∧
    applyAll (fun _ => 0) [((0 : Nat), [(5 : Nat), 6]), (1, [6, 7])] =
      applyAll (fun _ => 0) [(1, [6, 7]), (0, [5, 6])] :=
  ⟨by decide, List.Perm.swap _ _ _,
    c5_assembler_order_independent (fun i => i + 5) (fun _ => 0) _ _ (by decide)
      (List.Perm.swap _ _ _)⟩

end Cfdp

namespace Cfdp

theorem update_S1_metadata (r : Receiver2) (f : Nat) (h : r.state = .S1) :
    update_state r (.E10_RECEIVED_METADATA_PDU f) = applyMetadata r f := by
  simp [update_state, h]

theorem update_S2_filedata (r : Receiver2) (off : Nat) (d : List Nat) (h : r.state = .S2) :
    update_state r (.E11_RECEIVED_FILEDATA_PDU off d) = applyFileData r off d := by
  simp [update_state, h]

theorem update_S2_eof (r : Receiver2) (c f : Nat) (h : r.state = .S2) :
    update_state r (.E12_RECEIVED_EOF_NO_ERROR_PDU c f) = applyEof r c f := by
  simp [update_state, h]

theorem update_S2_eoferror (r : Receiver2) (c : ConditionCode) (h : r.state = .S2) :
    update_state r (.E13_RECEIVED_EOF_ERROR_PDU c) = raiseFault r c := by
  simp [update_state, h]

theorem update_S2_naktimer (r : Receiver2) (h : r.state = .S2) :
    update_state r .NAK_TIMER_EXPIRED = applyNakTimer r := by
  simp [update_state, h]

theorem update_S4_ack (r : Receiver2) (h : r.state = .S4) :
    update_state r .E14_RECEIVED_ACK_FIN_PDU = enter r .S5 := by
  simp [update_state, h]

theorem update_S1_filedata (r : Receiver2) (off : Nat) (d : List Nat) (h : r.state = .S1) :
    update_state r (.E11_RECEIVED_FILEDATA_PDU off d) =
      { r with buffered_filedata := r.buffered_filedata ++ [(off, d)] } := by
  simp [update_state, h]

theorem update_S1_eof (r : Receiver2) (c f : Nat) (h : r.state = .S1) :
    update_state r (.E12_RECEIVED_EOF_NO_ERROR_PDU c f) =
      { r with stashed_eof := some (c, f) } := by
  simp [update_state, h]

theorem update_S1_eoferror (r : Receiver2) (c : ConditionCode) (h : r.state = .S1) :
    update_state r (.E13_RECEIVED_EOF_ERROR_PDU c) =
      { r with stashed_eof_error := some c } := by
  simp [update_state, h]

theorem update_ignored_S4 (r : Receiver2) (ev : Event) (h : r.state = .S4)
    (hev : ev ≠ .E14_RECEIVED_ACK_FIN_PDU) : update_state r ev = r := by
  cases ev <;> simp [update_state, h] at hev ⊢

theorem update_ignored_S5 (r : Receiver2) (ev : Event) (h : r.state = .S5) :
    update_state r ev = r := by
  cases ev <;> simp [update_state, h]

theorem update_metadata_not_S1 (r : Receiver2) (f : Nat) (h : r.state ≠ .S1) :
    update_state r (.E10_RECEIVED_METADATA_PDU f) = r := by
  cases hst : r.state <;> simp [update_state, hst] <;> exact absurd hst h

theorem runEvents_cons (r : Receiver2) (ev : Event) (evs : List Event) :
    runEvents r (ev :: evs) = runEvents (update_state r ev) evs := by
  simp [runEvents]

theorem runEvents_append (r : Receiver2) (a b : List Event) :
    runEvents r (a ++ b) = runEvents (runEvents r a) b := by
  simp [runEvents, List.foldl_append]

end Cfdp

namespace Cfdp

theorem midInv_congr (src : List Nat) (lim : Nat) (C C2 : Nat → Prop) (r : Receiver2)
    (hiff : ∀ x, C x ↔ C2 x) (h : MidInv src lim C r) : MidInv src lim C2 r :=
  { hstate := h.hstate, hvisited := h.hvisited, hub := h.hub
    hsem := fun x => by rw [h.hsem x, hiff x]
    hord := h.hord, hends := h.hends
    htemp := fun i hi => h.htemp i ((hiff i).mpr hi)
    heof := h.heof, hemit := h.hemit, hdest := h.hdest
    hnak := h.hnak, hlim := h.hlim }

theorem midInv_start (src : List Nat) (lim : Nat) (hpos : 0 < src.length) :
    MidInv src lim (fun _ => False)
      (update_state (initReceiver lim) (.E10_RECEIVED_METADATA_PDU src.length)) := by
  have hne : ¬ (src.length = 0) := by omega
  have hr : update_state (initReceiver lim) (.E10_RECEIVED_METADATA_PDU src.length) =
      { state := .S2, visited := [.S1, .S2]
        gap := ⟨[(0, src.length)], some src.length, 0⟩
        temp_open := true, temp := fun _ => 0, dest_file := none
        meta_received := true, meta_file_size := src.length
        buffered_filedata := [], stashed_eof := none, stashed_eof_error := none
        eof_received := false, eof_checksum := 0, eof_file_size := 0
        nak_count := 0, nak_limit := lim, fault := none, emitted := [] } := by
    simp [update_state, initReceiver, applyMetadata, enter, init, hne]
  rw [hr]
  have hsem1 : ∀ x, inGaps [(0, src.length)] x ↔ (x < src.length ∧ ¬ False) := by
    intro x
    rw [inGaps_cons]
    constructor
    · rintro (⟨_, h2⟩ | h2)
      · exact ⟨h2, fun h => h⟩
      · exact absurd h2 (inGaps_nil x)
    · rintro ⟨h2, _⟩
      exact Or.inl ⟨Nat.zero_le x, h2⟩
  have hord1 : gapsOrdered 0 [(0, src.length)] := ⟨Nat.le_refl 0, hpos, trivial⟩
  have hends1 : ∀ p ∈ [((0 : Nat), src.length)], p.2 ≤ src.length := by
    intro p hp
    simp only [List.mem_singleton] at hp
    subst hp
    exact Nat.le_refl _
  exact { hstate := rfl, hvisited := rfl, hub := rfl, hsem := hsem1, hord := hord1
          hends := hends1, htemp := fun i hi => absurd hi (fun h => h)
          heof := rfl, hemit := rfl, hdest := rfl, hnak := rfl, hlim := rfl }

theorem applyFileData_plain (r : Receiver2) (off : Nat) (d : List Nat) (f : Nat)
    (hub : r.gap.upper_bound = some f) (hfit : off + d.length ≤ f)
    (heof : r.eof_received = false) :
    applyFileData r off d =
      { r with gap := mark_received r.gap off (off + d.length)
               temp := write r.temp off d } := by
  have hnof : ¬ (f < off + d.length) := by omega
  simp [applyFileData, hub, hnof, heof]

theorem midInv_step (src : List Nat) (lim : Nat) (C : Nat → Prop) (r : Receiver2)
    (seg : Nat × List Nat) (h : MidInv src lim C r) (hseg : SegOK src seg) :
    MidInv src lim (fun x => C x ∨ (seg.1 ≤ x ∧ x < seg.1 + seg.2.length))
      (update_state r (fdEvent seg)) := by
  obtain ⟨hne, hfit, hdata⟩ := hseg
  have hlen : 0 < seg.2.length := List.length_pos.mpr hne
  rw [fdEvent, update_S2_filedata _ _ _ h.hstate,
    applyFileData_plain _ _ _ src.length h.hub hfit h.heof]
  refine ⟨h.hstate, h.hvisited, ?_, ?_, ?_, ?_, ?_, h.heof, h.hemit, h.hdest, h.hnak, h.hlim⟩
  · show (mark_received r.gap seg.1 (seg.1 + seg.2.length)).upper_bound = some src.length
    rw [mark_received_ub, h.hub]
  · intro x
    show inGaps (mark_received r.gap seg.1 (seg.1 + seg.2.length)).gaps x ↔ _
    rw [inGaps_mark_some r.gap _ _ src.length x h.hub, h.hsem x]
    constructor
    · rintro ⟨⟨hx, hnc⟩, hns⟩
      exact ⟨hx, fun hor => hor.elim hnc hns⟩
    · rintro ⟨hx, hnor⟩
      exact ⟨⟨hx, fun hc => hnor (Or.inl hc)⟩, fun hs => hnor (Or.inr hs)⟩
  · show gapsOrdered 0 (mark_received r.gap seg.1 (seg.1 + seg.2.length)).gaps
    rw [mark_received_gaps_some r.gap _ _ src.length h.hub (by omega)]
    exact gapsOrdered_subtractRange 0 _ _ _ (by omega) h.hord
  · intro p hp
    rw [mark_received_gaps_some r.gap _ _ src.length h.hub (by omega)] at hp
    obtain ⟨iv, hiv, hle⟩ := subtractRange_mem _ p _ _ hp
    exact Nat.le_trans hle.2.2 (h.hends iv hiv)
  · intro i hi
    show write r.temp seg.1 seg.2 i = src.getD i 0
    by_cases hin : seg.1 ≤ i ∧ i < seg.1 + seg.2.length
    · have : write r.temp seg.1 seg.2 i = seg.2.getD (i - seg.1) 0 := by
        simp [write, hin]
      rw [this, hdata (i - seg.1) (by omega)]
      congr 1
      omega
    · have : write r.temp seg.1 seg.2 i = r.temp i := by
        simp [write, hin]
      rw [this]
      rcases hi with hc | hs
      · exact h.htemp i hc
      · exact absurd hs hin

theorem midInv_fold (src : List Nat) (lim : Nat) (segs : List (Nat × List Nat)) :
    ∀ (C : Nat → Prop) (r : Receiver2), MidInv src lim C r →
    (∀ s ∈ segs, SegOK src s) →
    MidInv src lim (fun x => C x ∨ Covers segs x) (runEvents r (segs.map fdEvent)) := by
  induction segs with
  | nil =>
      intro C r h _
      refine midInv_congr src lim C _ r (fun x => ?_) h
      simp [Covers]
  | cons seg rest ih =>
      intro C r h hwf
      rw [List.map_cons, runEvents_cons]
      have hstep := midInv_step src lim C r seg h (hwf seg (by simp))
      have hrest := ih _ _ hstep (fun s hs => hwf s (by simp [hs]))
      refine midInv_congr src lim _ _ _ (fun x => ?_) hrest
      rw [Covers_cons]
      tauto

theorem midInv_scenario (src : List Nat) (lim : Nat) (segs : List (Nat × List Nat))
    (hpos : 0 < src.length) (hwf : ∀ s ∈ segs, SegOK src s) :
    MidInv src lim (Covers segs)
      (runEvents (initReceiver lim)
        (.E10_RECEIVED_METADATA_PDU src.length :: segs.map fdEvent)) := by
  rw [runEvents_cons]
  have h0 := midInv_start src lim hpos
  have h1 := midInv_fold src lim segs _ _ h0 hwf
  exact midInv_congr src lim _ _ _ (fun x => by tauto) h1

end Cfdp

namespace Cfdp

theorem range_map_eq_self (src : List Nat) (t : Nat → Nat)
    (h : ∀ i, i < src.length → t i = src.getD i 0) :
    (List.range src.length).map t = src := by
  apply List.ext_getElem
  · simp
  · intro i h1 h2
    simp only [List.getElem_map, List.getElem_range]
    rw [h i h2, List.getD_eq_getElem src 0 h2]

theorem sliceOf_length (src : List Nat) (off len : Nat) (h : off + len ≤ src.length) :
    (sliceOf src off len).length = len := by
  simp [sliceOf]
  omega

theorem sliceOf_getD (src : List Nat) (off len j : Nat) (hj : j < len)
    (h : off + len ≤ src.length) : (sliceOf src off len).getD j 0 = src.getD (off + j) 0 := by
  have h1 : j < (sliceOf src off len).length := by rw [sliceOf_length src off len h]; exact hj
  have h2 : off + j < src.length := by omega
  rw [List.getD_eq_getElem _ 0 h1, List.getD_eq_getElem _ 0 h2]
  simp [sliceOf, List.getElem_take, List.getElem_drop]

theorem enterS3_success (r : Receiver2)
    (hck : calc_checksum ((List.range r.eof_file_size).map r.temp) = r.eof_checksum) :
    (enterS3 r).state = .S4 ∧
    (enterS3 r).gap = r.gap ∧
    (enterS3 r).dest_file = some ((List.range r.eof_file_size).map r.temp) ∧
    (enterS3 r).emitted = r.emitted ++ [.Finished .NO_ERROR .COMPLETE] ∧
    (enterS3 r).visited = r.visited ++ [.S3, .S4] ∧
    (enterS3 r).nak_count = r.nak_count ∧
    (enterS3 r).nak_limit = r.nak_limit := by
  simp [enterS3, enter, hck]

theorem applyEof_complete (src : List Nat) (lim : Nat) (C : Nat → Prop) (r : Receiver2)
    (h : MidInv src lim C r) (hcov : ∀ x, x < src.length → C x) :
    (update_state r (.E12_RECEIVED_EOF_NO_ERROR_PDU (calc_checksum src) src.length)).state
        = .S4 ∧
    (update_state r
      (.E12_RECEIVED_EOF_NO_ERROR_PDU (calc_checksum src) src.length)).gap.gaps = [] ∧
    (update_state r
      (.E12_RECEIVED_EOF_NO_ERROR_PDU (calc_checksum src) src.length)).dest_file = some src ∧
    (update_state r (.E12_RECEIVED_EOF_NO_ERROR_PDU (calc_checksum src) src.length)).emitted
        = [.Finished .NO_ERROR .COMPLETE] ∧
    (update_state r (.E12_RECEIVED_EOF_NO_ERROR_PDU (calc_checksum src) src.length)).visited
        = [.S1, .S2, .S3, .S4] := by
  have hgnil : r.gap.gaps = [] := by
    refine gapsOrdered_nil_of_empty _ h.hord (fun x hx => ?_)
    rw [h.hsem x] at hx
    exact hx.2 (hcov x hx.1)
  have hg : set_upper_bound r.gap src.length = r.gap :=
    set_upper_bound_noop _ _ h.hub (by rw [hgnil]; simp)
  rw [update_S2_eof _ _ _ h.hstate]
  have happ : applyEof r (calc_checksum src) src.length =
      enterS3 { r with eof_received := true
                       eof_checksum := calc_checksum src
                       eof_file_size := src.length } := by
    simp only [applyEof, hg, hgnil]
    rfl
  rw [happ]
  set r1 : Receiver2 := { r with eof_received := true
                                 eof_checksum := calc_checksum src
                                 eof_file_size := src.length } with hr1
  have hcont : (List.range r1.eof_file_size).map r1.temp = src := by
    show (List.range src.length).map r.temp = src
    exact range_map_eq_self src r.temp (fun i hi => h.htemp i (hcov i hi))
  have hck : calc_checksum ((List.range r1.eof_file_size).map r1.temp) = r1.eof_checksum := by
    rw [hcont]
  obtain ⟨h1, h2, h3, h4, h5, _, _⟩ := enterS3_success r1 hck
  refine ⟨h1, ?_, ?_, ?_, ?_⟩
  · rw [h2]
    show r.gap.gaps = []
    exact hgnil
  · rw [h3, hcont]
  · rw [h4]
    show r.emitted ++ _ = _
    rw [h.hemit]
    rfl
  · rw [h5]
    show r.visited ++ _ = _
    rw [h.hvisited]
    rfl

theorem applyEof_incomplete (src : List Nat) (lim : Nat) (C : Nat → Prop) (r : Receiver2)
    (h : MidInv src lim C r) (hmiss : ∃ x, x < src.length ∧ ¬ C x) :
    PostEofInv src lim C
      (update_state r (.E12_RECEIVED_EOF_NO_ERROR_PDU (calc_checksum src) src.length)) := by
  have hne : r.gap.gaps ≠ [] := by
    obtain ⟨x, hx, hnc⟩ := hmiss
    have hin : inGaps r.gap.gaps x := (h.hsem x).mpr ⟨hx, hnc⟩
    intro hnil
    rw [hnil] at hin
    exact inGaps_nil x hin
  have hg : set_upper_bound r.gap src.length = r.gap :=
    set_upper_bound_noop _ _ h.hub
      (fun p hp => ⟨(gapsOrdered_mem _ _ h.hord p hp).2, h.hends p hp⟩)
  rw [update_S2_eof _ _ _ h.hstate]
  have happ : applyEof r (calc_checksum src) src.length =
      { r with eof_received := true
               eof_checksum := calc_checksum src
               eof_file_size := src.length } := by
    simp only [applyEof, hg]
    rw [if_neg hne]
  rw [happ]
  exact { hstate := h.hstate, hub := h.hub, hsem := h.hsem, hord := h.hord
          hends := h.hends, htemp := h.htemp, heof := rfl, heofck := rfl, heofsz := rfl
          hemit := h.hemit, hdest := h.hdest, hnak := h.hnak, hlim := h.hlim }

end Cfdp

namespace Cfdp

/-- Claim C1: for every ACKNOWLEDGED-mode transaction in which a Metadata
PDU with known file size, file-data PDUs covering every byte of
`[0, file_size)` (each carrying the source file's bytes), and an
EOF(NO_ERROR) PDU with the correct checksum are delivered, afterwards the
receiver's list of missing ranges (`nak_list` / `gap.missing()`) is empty,
the destination file equals the source file byte for byte, a
Finished(COMPLETE, NO_ERROR) PDU is emitted, and the state machine passes
S1, S2, S3, S4 and reaches S5 after the Finished ACK. -/
theorem c1_nominal_delivery (src : List Nat) (segs : List (Nat × List Nat)) (lim : Nat)
    (hpos : 0 < src.length)
    (hwf : ∀ seg ∈ segs, SegOK src seg)
    (hcov : ∀ x, x < src.length → Covers segs x) :
    nak_list (runEvents (initReceiver lim)
        (scenario src segs ++ [.E14_RECEIVED_ACK_FIN_PDU])) = [] ∧
    (runEvents (initReceiver lim)
        (scenario src segs ++ [.E14_RECEIVED_ACK_FIN_PDU])).dest_file = some src ∧
    (runEvents (initReceiver lim)
        (scenario src segs ++ [.E14_RECEIVED_ACK_FIN_PDU])).emitted
      = [.Finished .NO_ERROR .COMPLETE] ∧
    (runEvents (initReceiver lim)
        (scenario src segs ++ [.E14_RECEIVED_ACK_FIN_PDU])).visited
      = [.S1, .S2, .S3, .S4, .S5] ∧
    (runEvents (initReceiver lim)
        (scenario src segs ++ [.E14_RECEIVED_ACK_FIN_PDU])).state = .S5 := by
  have hdec : scenario src segs ++ [Event.E14_RECEIVED_ACK_FIN_PDU] =
      (Event.E10_RECEIVED_METADATA_PDU src.length :: segs.map fdEvent) ++
        (Event.E12_RECEIVED_EOF_NO_ERROR_PDU (calc_checksum src) src.length ::
          [Event.E14_RECEIVED_ACK_FIN_PDU]) := by
    simp [scenario]
  rw [hdec, runEvents_append, runEvents_cons]
  have hmid := midInv_scenario src lim segs hpos hwf
  obtain ⟨h1, h2, h3, h4, h5⟩ := applyEof_complete src lim _ _ hmid hcov
  rw [show ∀ rr : Receiver2, runEvents rr [Event.E14_RECEIVED_ACK_FIN_PDU] =
      update_state rr Event.E14_RECEIVED_ACK_FIN_PDU from fun _ => rfl]
  rw [update_S4_ack _ h1]
  refine ⟨?_, ?_, ?_, ?_, rfl⟩
  · show missing _ = []
    rw [missing, enter_gap]
    exact h2
  · show (enter _ _).dest_file = some src
    exact h3
  · show (enter _ _).emitted = _
    exact h4
  · show _ ++ [MachineState.S5] = _
    rw [h5]
    rfl

/-- Witness for claim C1: the nominal four-byte delivery in two segments. -/
theorem c1_witness :
    (0 < [1, 2, 3, 4].length) ∧
    (∀ seg ∈ [((0 : Nat), [(1 : Nat), 2]), (2, [3, 4])], SegOK [1, 2, 3, 4] seg) ∧
    (∀ x, x < [1, 2, 3, 4].length → Covers [((0 : Nat), [(1 : Nat), 2]), (2, [3, 4])] x) ∧
    (nak_list (runEvents (initReceiver 1)
        (scenario [1, 2, 3, 4] [(0, [1, 2]), (2, [3, 4])] ++ [.E14_RECEIVED_ACK_FIN_PDU]))
      = [] ∧
    (runEvents (initReceiver 1)
        (scenario [1, 2, 3, 4] [(0, [1, 2]), (2, [3, 4])] ++
          [.E14_RECEIVED_ACK_FIN_PDU])).dest_file = some [1, 2, 3, 4] ∧
    (runEvents (initReceiver 1)
        (scenario [1, 2, 3, 4] [(0, [1, 2]), (2, [3, 4])] ++
          [.E14_RECEIVED_ACK_FIN_PDU])).emitted = [.Finished .NO_ERROR .COMPLETE] ∧
    (runEvents (initReceiver 1)
        (scenario [1, 2, 3, 4] [(0, [1, 2]), (2, [3, 4])] ++
          [.E14_RECEIVED_ACK_FIN_PDU])).visited = [.S1, .S2, .S3, .S4, .S5] ∧
    (runEvents (initReceiver 1)
        (scenario [1, 2, 3, 4] [(0, [1, 2]), (2, [3, 4])] ++
          [.E14_RECEIVED_ACK_FIN_PDU])).state = .S5) :=
  ⟨by decide, by decide, by decide,
    c1_nominal_delivery [1, 2, 3, 4] [(0, [1, 2]), (2, [3, 4])] 1
      (by decide) (by decide) (by decide)⟩

end Cfdp

namespace Cfdp

theorem applyNakTimer_within (r : Receiver2) (hne : r.gap.gaps ≠ [])
    (hlim : r.nak_count + 1 ≤ r.nak_limit) :
    applyNakTimer r =
      { r with emitted := r.emitted ++ [.NAK 0 (bound r.gap) (missing r.gap)]
               nak_count := r.nak_count + 1 } := by
  have hnc : ¬ (r.nak_limit < r.nak_count + 1) := by omega
  simp [applyNakTimer, hne, hnc]

theorem applyNakTimer_exceed (r : Receiver2) (hne : r.gap.gaps ≠ [])
    (hlim : r.nak_limit < r.nak_count + 1) :
    applyNakTimer r =
      raiseFault { r with emitted := r.emitted ++ [.NAK 0 (bound r.gap) (missing r.gap)]
                          nak_count := r.nak_count + 1 } .NAK_LIMIT_REACHED := by
  simp [applyNakTimer, hne, hlim]

theorem postEof_nak (src : List Nat) (lim : Nat) (C : Nat → Prop) (r : Receiver2)
    (h : PostEofInv src lim C r) (hne : r.gap.gaps ≠ []) (hlim1 : 1 ≤ lim) :
    update_state r .NAK_TIMER_EXPIRED =
      { r with emitted := [.NAK 0 src.length r.gap.gaps], nak_count := 1 } := by
  rw [update_S2_naktimer _ h.hstate,
    applyNakTimer_within r hne (by rw [h.hnak, h.hlim]; omega)]
  rw [h.hnak, h.hemit]
  have hb : bound r.gap = src.length := by simp [bound, h.hub]
  rw [hb]
  rfl

/-- Claim C2: after metadata with known file size, a strict subset of the
file-data segments, and EOF(NO_ERROR), the NAK emitted on the NAK timer
carries segment requests exactly the missing byte ranges - sorted by start,
non-overlapping, clipped to the file size, and whose members are exactly
the bytes below the file size not covered by the delivered segments; in
particular, delivering only the 1024-byte segments at offsets 0 and 2048 of
a 4096-byte file yields segment requests [(1024, 2048), (3072, 4096)]. -/
theorem c2_nak_segment_requests :
    (∀ (src : List Nat) (segs : List (Nat × List Nat)) (lim : Nat),
      0 < src.length → (∀ seg ∈ segs, SegOK src seg) →
      (∃ x, x < src.length ∧ ¬ Covers segs x) → 1 ≤ lim →
      ∃ M, (runEvents (initReceiver lim)
              (scenario src segs ++ [.NAK_TIMER_EXPIRED])).emitted
            = [.NAK 0 src.length M] ∧
        List.Pairwise (fun a b => a.2 ≤ b.1) M ∧
        (∀ p ∈ M, p.1 < p.2 ∧ p.2 ≤ src.length) ∧
        (∀ x, inGaps M x ↔ (x < src.length ∧ ¬ Covers segs x))) ∧
    (∀ (src d1 d2 : List Nat), src.length = 4096 → d1.length = 1024 → d2.length = 1024 →
      (runEvents (initReceiver 5)
          (scenario src [(0, d1), (2048, d2)] ++ [.NAK_TIMER_EXPIRED])).emitted
        = [.NAK 0 4096 [(1024, 2048), (3072, 4096)]]) := by
  constructor
  · intro src segs lim hpos hwf hmiss hlim1
    have hdec : scenario src segs ++ [Event.NAK_TIMER_EXPIRED] =
        (Event.E10_RECEIVED_METADATA_PDU src.length :: segs.map fdEvent) ++
          (Event.E12_RECEIVED_EOF_NO_ERROR_PDU (calc_checksum src) src.length ::
            [Event.NAK_TIMER_EXPIRED]) := by
      simp [scenario]
    rw [hdec, runEvents_append, runEvents_cons]
    have hmid := midInv_scenario src lim segs hpos hwf
    have hpost := applyEof_incomplete src lim _ _ hmid hmiss
    set r2 := update_state (runEvents (initReceiver lim)
      (Event.E10_RECEIVED_METADATA_PDU src.length :: segs.map fdEvent))
      (Event.E12_RECEIVED_EOF_NO_ERROR_PDU (calc_checksum src) src.length) with hr2
    have hne : r2.gap.gaps ≠ [] := by
      obtain ⟨x, hx, hnc⟩ := hmiss
      have hin : inGaps r2.gap.gaps x := (hpost.hsem x).mpr ⟨hx, hnc⟩
      intro hnil
      rw [hnil] at hin
      exact inGaps_nil x hin
    rw [show runEvents r2 [Event.NAK_TIMER_EXPIRED] =
        update_state r2 Event.NAK_TIMER_EXPIRED from rfl]
    rw [postEof_nak src lim _ r2 hpost hne hlim1]
    refine ⟨r2.gap.gaps, rfl, gapsOrdered_pairwise 0 _ hpost.hord, ?_, ?_⟩
    · exact fun p hp => ⟨(gapsOrdered_mem 0 _ hpost.hord p hp).2, hpost.hends p hp⟩
    · exact hpost.hsem
  · intro src d1 d2 hs h1 h2
    simp [scenario, runEvents, fdEvent, update_state, applyMetadata, applyFileData,
      applyEof, applyNakTimer, init, enter, initReceiver, mark_received, set_upper_bound,
      subtractRange, subtractOne, truncateTo, missing, bound, hs, h1, h2]

/-- Witness for claim C2: a six-byte file delivered as one two-byte segment
at offset 2, leaving gaps at both ends. -/
theorem c2_witness :
    (0 < [1, 2, 3, 4, 5, 6].length) ∧
    (∀ seg ∈ [((2 : Nat), [(3 : Nat), 4])], SegOK [1, 2, 3, 4, 5, 6] seg) ∧
    (∃ x, x < [1, 2, 3, 4, 5, 6].length ∧ ¬ Covers [((2 : Nat), [(3 : Nat), 4])] x) ∧
    (1 ≤ 2) ∧
    (∃ M, (runEvents (initReceiver 2)
            (scenario [1, 2, 3, 4, 5, 6] [(2, [3, 4])] ++ [.NAK_TIMER_EXPIRED])).emitted
          = [.NAK 0 [1, 2, 3, 4, 5, 6].length M] ∧
      List.Pairwise (fun a b => a.2 ≤ b.1) M ∧
      (∀ p ∈ M, p.1 < p.2 ∧ p.2 ≤ [1, 2, 3, 4, 5, 6].length) ∧
      (∀ x, inGaps M x ↔
        (x < [1, 2, 3, 4, 5, 6].length ∧ ¬ Covers [((2 : Nat), [(3 : Nat), 4])] x))) :=
  ⟨by decide, by decide, ⟨0, by decide⟩, by decide,
    c2_nak_segment_requests.1 [1, 2, 3, 4, 5, 6] [(2, [3, 4])] 2
      (by decide) (by decide) ⟨0, by decide⟩ (by decide)⟩

end Cfdp

namespace Cfdp

theorem applyFileData_eq (r : Receiver2) (off : Nat) (d : List Nat) (f : Nat)
    (hub : r.gap.upper_bound = some f) (hfit : off + d.length ≤ f) :
    applyFileData r off d =
      if (mark_received r.gap off (off + d.length)).gaps = [] ∧ r.gap.gaps ≠ [] ∧
          r.eof_received = true
      then enterS3 { r with gap := mark_received r.gap off (off + d.length)
                            temp := write r.temp off d }
      else { r with gap := mark_received r.gap off (off + d.length)
                    temp := write r.temp off d } := by
  have hnof : ¬ (f < off + d.length) := by omega
  simp [applyFileData, hub, hnof]

theorem subtract_head (s e : Nat) (M : List (Nat × Nat)) (hse : s < e)
    (hords : gapsOrdered e M) : subtractRange ((s, e) :: M) s e = M := by
  have hsplit : subtractRange ((s, e) :: M) s e =
      subtractOne (s, e) s e ++ subtractRange M s e := by
    simp [subtractRange]
  have hmem : ∀ p ∈ M, p.1 < p.2 ∧ (p.2 ≤ s ∨ e ≤ p.1) := fun p hp =>
    ⟨(gapsOrdered_mem e M hords p hp).2, Or.inr (gapsOrdered_mem e M hords p hp).1⟩
  rw [hsplit, subtractOne_self s e, subtractRange_eq_self M s e (by omega) hmem]
  rfl

theorem replay_fills (src : List Nat) :
    ∀ (M : List (Nat × Nat)) (r : Receiver2), ReplayPre src r → r.gap.gaps = M → M ≠ [] →
    nak_list (runEvents r (replayEvents src M)) = [] ∧
    (runEvents r (replayEvents src M)).dest_file = some src := by
  intro M
  induction M with
  | nil => intro r _ _ hne; exact absurd rfl hne
  | cons hd M' ih =>
      rcases hd with ⟨s, e⟩
      intro r hpre hgaps _
      have hord1 : gapsOrdered 0 ((s, e) :: M') := hgaps ▸ hpre.hord
      have hse : s < e := hord1.2.1
      have hords : gapsOrdered e M' := hord1.2.2
      have hends1 : ∀ p ∈ (s, e) :: M', p.2 ≤ src.length := hgaps ▸ hpre.hends
      have hende : e ≤ src.length := hends1 (s, e) (by simp)
      have hdlen : (sliceOf src s (e - s)).length = e - s :=
        sliceOf_length src s (e - s) (by omega)
      have harg : s + (sliceOf src s (e - s)).length = e := by omega
      have hrep : replayEvents src ((s, e) :: M') =
          Event.E11_RECEIVED_FILEDATA_PDU s (sliceOf src s (e - s)) ::
            replayEvents src M' := by
        simp [replayEvents]
      have hgnew : (mark_received r.gap s (s + (sliceOf src s (e - s)).length)).gaps = M' := by
        rw [harg, mark_received_gaps_some r.gap s e src.length hpre.hub hse, hgaps,
          subtract_head s e M' hse hords]
      have htempnew : ∀ i, i < src.length → ¬ inGaps M' i →
          write r.temp s (sliceOf src s (e - s)) i = src.getD i 0 := by
        intro i hi hni
        by_cases hin : s ≤ i ∧ i < e
        · have hw : write r.temp s (sliceOf src s (e - s)) i =
              (sliceOf src s (e - s)).getD (i - s) 0 := by
            simp only [write, hdlen]
            rw [if_pos (by omega)]
          rw [hw, sliceOf_getD src s (e - s) (i - s) (by omega) (by omega)]
          congr 1
          omega
        · have hw : write r.temp s (sliceOf src s (e - s)) i = r.temp i := by
            simp only [write, hdlen]
            rw [if_neg (by omega)]
          rw [hw]
          refine hpre.htemp i hi ?_
          rw [hgaps, inGaps_cons]
          rintro (hc | hc)
          · exact hin ⟨hc.1, hc.2⟩
          · exact hni hc
      rw [hrep, runEvents_cons,
        update_S2_filedata _ _ _ hpre.hstate,
        applyFileData_eq r s (sliceOf src s (e - s)) src.length hpre.hub (by omega)]
      by_cases hM' : M' = []
      · subst hM'
        rw [if_pos ⟨hgnew, by rw [hgaps]; simp, hpre.heof⟩]
        set r1 : Receiver2 := { r with
          gap := mark_received r.gap s (s + (sliceOf src s (e - s)).length)
          temp := write r.temp s (sliceOf src s (e - s)) } with hr1
        have hcont : (List.range r1.eof_file_size).map r1.temp = src := by
          show (List.range r.eof_file_size).map _ = src
          rw [hpre.heofsz]
          exact range_map_eq_self src _
            (fun i hi => htempnew i hi (inGaps_nil i))
        have hck : calc_checksum ((List.range r1.eof_file_size).map r1.temp)
            = r1.eof_checksum := by
          rw [hcont]
          show calc_checksum src = r.eof_checksum
          rw [hpre.heofck]
        obtain ⟨_, hgap3, hdest3, _, _, _, _⟩ := enterS3_success r1 hck
        constructor
        · show missing (enterS3 r1).gap = []
          rw [missing, hgap3]
          exact hgnew
        · rw [show runEvents (enterS3 r1) (replayEvents src []) = enterS3 r1 from rfl,
            hdest3, hcont]
      · rw [if_neg (by rw [hgnew]; intro hand; exact hM' hand.1)]
        set r1 : Receiver2 := { r with
          gap := mark_received r.gap s (s + (sliceOf src s (e - s)).length)
          temp := write r.temp s (sliceOf src s (e - s)) } with hr1
        have hpre1 : ReplayPre src r1 :=
          { hstate := hpre.hstate
            hub := by show (mark_received r.gap _ _).upper_bound = _
                      rw [mark_received_ub]
                      exact hpre.hub
            hord := by show gapsOrdered 0 (mark_received r.gap _ _).gaps
                       rw [hgnew]
                       exact gapsOrdered_mono e 0 M' (Nat.zero_le e) hords
            hends := by show ∀ p ∈ (mark_received r.gap _ _).gaps, p.2 ≤ src.length
                        rw [hgnew]
                        exact fun p hp => hends1 p (by simp [hp])
            heof := hpre.heof
            heofck := hpre.heofck
            heofsz := hpre.heofsz
            htemp := by show ∀ i, i < src.length →
                          ¬ inGaps (mark_received r.gap _ _).gaps i → _
                        rw [hgnew]
                        exact htempnew
            hdest := hpre.hdest }
        exact ih r1 hpre1 hgnew hM'

end Cfdp

namespace Cfdp

/-- Claim C3: the byte ranges named in the emitted NAK's segment requests,
retransmitted as ordinary file-data PDUs (processed by the same E11 path,
with no special branch), leave the receiver's gap list empty and the
destination file byte-for-byte equal to the source file. -/
theorem c3_retransmission (src : List Nat) (segs : List (Nat × List Nat)) (lim : Nat)
    (hpos : 0 < src.length) (hwf : ∀ seg ∈ segs, SegOK src seg)
    (hmiss : ∃ x, x < src.length ∧ ¬ Covers segs x) (hlim1 : 1 ≤ lim) :
    (runEvents (initReceiver lim) (scenario src segs ++ [.NAK_TIMER_EXPIRED])).emitted
      = [.NAK 0 src.length (nak_list (runEvents (initReceiver lim)
          (scenario src segs ++ [.NAK_TIMER_EXPIRED])))] ∧
    nak_list (runEvents
        (runEvents (initReceiver lim) (scenario src segs ++ [.NAK_TIMER_EXPIRED]))
        (replayEvents src (nak_list (runEvents (initReceiver lim)
          (scenario src segs ++ [.NAK_TIMER_EXPIRED]))))) = [] ∧
    (runEvents
        (runEvents (initReceiver lim) (scenario src segs ++ [.NAK_TIMER_EXPIRED]))
        (replayEvents src (nak_list (runEvents (initReceiver lim)
          (scenario src segs ++ [.NAK_TIMER_EXPIRED]))))).dest_file = some src := by
  have hdec : scenario src segs ++ [Event.NAK_TIMER_EXPIRED] =
      (Event.E10_RECEIVED_METADATA_PDU src.length :: segs.map fdEvent) ++
        (Event.E12_RECEIVED_EOF_NO_ERROR_PDU (calc_checksum src) src.length ::
          [Event.NAK_TIMER_EXPIRED]) := by
    simp [scenario]
  rw [hdec, runEvents_append, runEvents_cons]
  have hmid := midInv_scenario src lim segs hpos hwf
  have hpost := applyEof_incomplete src lim _ _ hmid hmiss
  set r2 := update_state (runEvents (initReceiver lim)
    (Event.E10_RECEIVED_METADATA_PDU src.length :: segs.map fdEvent))
    (Event.E12_RECEIVED_EOF_NO_ERROR_PDU (calc_checksum src) src.length) with hr2
  have hne : r2.gap.gaps ≠ [] := by
    obtain ⟨x, hx, hnc⟩ := hmiss
    have hin : inGaps r2.gap.gaps x := (hpost.hsem x).mpr ⟨hx, hnc⟩
    intro hnil
    rw [hnil] at hin
    exact inGaps_nil x hin
  rw [show runEvents r2 [Event.NAK_TIMER_EXPIRED] =
      update_state r2 Event.NAK_TIMER_EXPIRED from rfl]
  rw [postEof_nak src lim _ r2 hpost hne hlim1]
  set r1 : Receiver2 :=
    { r2 with emitted := [.NAK 0 src.length r2.gap.gaps], nak_count := 1 } with hr1def
  have hnl : nak_list r1 = r2.gap.gaps := rfl
  have hpre1 : ReplayPre src r1 :=
    { hstate := hpost.hstate, hub := hpost.hub, hord := hpost.hord
      hends := hpost.hends, heof := hpost.heof, heofck := hpost.heofck
      heofsz := hpost.heofsz
      htemp := fun i hi hni => hpost.htemp i (by
        by_contra hnc
        exact hni ((hpost.hsem i).mpr ⟨hi, hnc⟩))
      hdest := hpost.hdest }
  obtain ⟨hfill1, hfill2⟩ := replay_fills src r2.gap.gaps r1 hpre1 rfl hne
  exact ⟨rfl, hfill1, hfill2⟩

/-- Witness for claim C3: the six-byte file with only the middle segment
delivered; the NAK'd ranges are replayed and complete the file. -/
theorem c3_witness :
    (0 < [1, 2, 3, 4, 5, 6].length) ∧
    (∀ seg ∈ [((2 : Nat), [(3 : Nat), 4])], SegOK [1, 2, 3, 4, 5, 6] seg) ∧
    (∃ x, x < [1, 2, 3, 4, 5, 6].length ∧ ¬ Covers [((2 : Nat), [(3 : Nat), 4])] x) ∧
    (1 ≤ 2) ∧
    ((runEvents (initReceiver 2)
        (scenario [1, 2, 3, 4, 5, 6] [(2, [3, 4])] ++ [.NAK_TIMER_EXPIRED])).emitted
      = [.NAK 0 [1, 2, 3, 4, 5, 6].length (nak_list (runEvents (initReceiver 2)
          (scenario [1, 2, 3, 4, 5, 6] [(2, [3, 4])] ++ [.NAK_TIMER_EXPIRED])))] ∧
    nak_list (runEvents
        (runEvents (initReceiver 2)
          (scenario [1, 2, 3, 4, 5, 6] [(2, [3, 4])] ++ [.NAK_TIMER_EXPIRED]))
        (replayEvents [1, 2, 3, 4, 5, 6] (nak_list (runEvents (initReceiver 2)
          (scenario [1, 2, 3, 4, 5, 6] [(2, [3, 4])] ++ [.NAK_TIMER_EXPIRED]))))) = [] ∧
    (runEvents
        (runEvents (initReceiver 2)
          (scenario [1, 2, 3, 4, 5, 6] [(2, [3, 4])] ++ [.NAK_TIMER_EXPIRED]))
        (replayEvents [1, 2, 3, 4, 5, 6] (nak_list (runEvents (initReceiver 2)
          (scenario [1, 2, 3, 4, 5, 6] [(2, [3, 4])] ++
            [.NAK_TIMER_EXPIRED]))))).dest_file = some [1, 2, 3, 4, 5, 6]) :=
  ⟨by decide, by decide, ⟨0, by decide⟩, by decide,
    c3_retransmission [1, 2, 3, 4, 5, 6] [(2, [3, 4])] 2
      (by decide) (by decide) ⟨0, by decide⟩ (by decide)⟩

end Cfdp

namespace Cfdp

theorem update_ignored_S3 (r : Receiver2) (ev : Event) (h : r.state = .S3) :
    update_state r ev = r := by
  cases ev <;> simp [update_state, h]

theorem update_S1_ack (r : Receiver2) (h : r.state = .S1) :
    update_state r .E14_RECEIVED_ACK_FIN_PDU = r := by
  simp [update_state, h]

theorem update_S2_ack (r : Receiver2) (h : r.state = .S2) :
    update_state r .E14_RECEIVED_ACK_FIN_PDU = r := by
  simp [update_state, h]

theorem fold_filedata_state (l : List (Nat × List Nat)) (r : Receiver2)
    (h : r.state = .S2 ∨ r.state = .S4) :
    (l.foldl (fun acc p => if acc.state = .S2 then applyFileData acc p.1 p.2 else acc)
      r).state = .S2 ∨
    (l.foldl (fun acc p => if acc.state = .S2 then applyFileData acc p.1 p.2 else acc)
      r).state = .S4 := by
  induction l generalizing r with
  | nil => exact h
  | cons hd tl ih =>
      refine ih _ ?_
      by_cases hs : r.state = .S2
      · simp only [hs, if_pos]
        rcases applyFileData_state r hd.1 hd.2 with h1 | h1
        · exact Or.inl (h1.trans hs)
        · exact Or.inr h1
      · simpa [hs] using h

theorem applyMetadata_state (r : Receiver2) (f : Nat) :
    (applyMetadata r f).state = .S2 ∨ (applyMetadata r f).state = .S4 := by
  have hfold := fold_filedata_state r.buffered_filedata
    (enter { r with meta_received := true
                    meta_file_size := f
                    temp_open := true
                    temp := fun _ => 0
                    gap := if f = 0 then init none else init (some f)
                    buffered_filedata := []
                    stashed_eof := none
                    stashed_eof_error := none } .S2) (Or.inl rfl)
  have key : ∀ (e1 : Option ConditionCode) (e2 : Option (Nat × Nat)) (rr : Receiver2),
      rr.state = .S2 ∨ rr.state = .S4 →
      ((match e1, e2 with
        | some c, _ => if rr.state = .S2 then raiseFault rr c else rr
        | none, some p => if rr.state = .S2 then applyEof rr p.1 p.2 else rr
        | none, none => rr) : Receiver2).state = .S2 ∨
      ((match e1, e2 with
        | some c, _ => if rr.state = .S2 then raiseFault rr c else rr
        | none, some p => if rr.state = .S2 then applyEof rr p.1 p.2 else rr
        | none, none => rr) : Receiver2).state = .S4 := by
    intro e1 e2 rr h
    cases e1 with
    | some c =>
        split_ifs
        · exact Or.inr (raiseFault_state rr c)
        · exact h
    | none =>
        cases e2 with
        | some p =>
            split_ifs with hs
            · rcases applyEof_state rr p.1 p.2 with h1 | h1
              · exact Or.inl (h1.trans hs)
              · exact Or.inr h1
            · exact h
        | none => exact h
  exact key r.stashed_eof_error r.stashed_eof _ hfold

theorem applyFileData_idem_or_S4 (r : Receiver2) (off : Nat) (d : List Nat)
    (hst : r.state = .S2) :
    (applyFileData r off d).state = .S4 ∨
    applyFileData (applyFileData r off d) off d = applyFileData r off d := by
  have hshape : applyFileData r off d =
      (if (match r.gap.upper_bound with
           | some f => decide (f < off + d.length)
           | none => false) = true
       then raiseFault { r with gap := mark_received r.gap off (off + d.length)
                                temp := write r.temp off d } .FILE_SIZE_ERROR
       else if (mark_received r.gap off (off + d.length)).gaps = [] ∧
           r.gap.gaps ≠ [] ∧ r.eof_received = true
       then enterS3 { r with gap := mark_received r.gap off (off + d.length)
                             temp := write r.temp off d }
       else { r with gap := mark_received r.gap off (off + d.length)
                     temp := write r.temp off d }) := rfl
  by_cases hov : (match r.gap.upper_bound with
      | some f => decide (f < off + d.length)
      | none => false) = true
  · left
    rw [hshape, if_pos hov]
    exact raiseFault_state _ _
  · by_cases hc : (mark_received r.gap off (off + d.length)).gaps = [] ∧
        r.gap.gaps ≠ [] ∧ r.eof_received = true
    · left
      rw [hshape, if_neg hov, if_pos hc]
      exact enterS3_state _
    · right
      rw [hshape, if_neg hov, if_neg hc]
      set r1 : Receiver2 := { r with gap := mark_received r.gap off (off + d.length)
                                     temp := write r.temp off d } with hr1
      have hub1 : r1.gap.upper_bound = r.gap.upper_bound := mark_received_ub _ _ _
      have hov1 : ¬ ((match r1.gap.upper_bound with
          | some f => decide (f < off + d.length)
          | none => false) = true) := by
        rw [hub1]
        exact hov
      have hg1 : mark_received r1.gap off (off + d.length) = r1.gap :=
        mark_received_idem r.gap off (off + d.length)
      have hc1 : ¬ ((mark_received r1.gap off (off + d.length)).gaps = [] ∧
          r1.gap.gaps ≠ [] ∧ r1.eof_received = true) := by
        rw [hg1]
        rintro ⟨ha, hb, _⟩
        exact hb ha
      have hshape1 : applyFileData r1 off d =
          (if (match r1.gap.upper_bound with
               | some f => decide (f < off + d.length)
               | none => false) = true
           then raiseFault { r1 with gap := mark_received r1.gap off (off + d.length)
                                     temp := write r1.temp off d } .FILE_SIZE_ERROR
           else if (mark_received r1.gap off (off + d.length)).gaps = [] ∧
               r1.gap.gaps ≠ [] ∧ r1.eof_received = true
           then enterS3 { r1 with gap := mark_received r1.gap off (off + d.length)
                                  temp := write r1.temp off d }
           else { r1 with gap := mark_received r1.gap off (off + d.length)
                          temp := write r1.temp off d }) := rfl
      have htemp1 : write r1.temp off d = r1.temp := by
        show write (write r.temp off d) off d = write r.temp off d
        exact write_idem r.temp off d
      rw [hshape1, if_neg hov1, if_neg hc1, hg1, htemp1]

theorem applyEof_idem_or_S4 (r : Receiver2) (c f : Nat) :
    (applyEof r c f).state = .S4 ∨ applyEof (applyEof r c f) c f = applyEof r c f := by
  have hshape : applyEof r c f =
      (if (set_upper_bound r.gap f).gaps = [] then
        enterS3 { r with eof_received := true, eof_checksum := c, eof_file_size := f
                         gap := set_upper_bound r.gap f }
       else { r with eof_received := true, eof_checksum := c, eof_file_size := f
                     gap := set_upper_bound r.gap f }) := rfl
  by_cases hc : (set_upper_bound r.gap f).gaps = []
  · left
    rw [hshape, if_pos hc]
    exact enterS3_state _
  · right
    rw [hshape, if_neg hc]
    set r1 : Receiver2 := { r with eof_received := true, eof_checksum := c
                                   eof_file_size := f
                                   gap := set_upper_bound r.gap f } with hr1
    have hg1 : set_upper_bound r1.gap f = r1.gap := set_upper_bound_idem r.gap f
    have hc1 : ¬ ((set_upper_bound r1.gap f).gaps = []) := by
      rw [hg1]
      exact hc
    have hshape1 : applyEof r1 c f =
        (if (set_upper_bound r1.gap f).gaps = [] then
          enterS3 { r1 with eof_received := true, eof_checksum := c, eof_file_size := f
                            gap := set_upper_bound r1.gap f }
         else { r1 with eof_received := true, eof_checksum := c, eof_file_size := f
                        gap := set_upper_bound r1.gap f }) := rfl
    rw [hshape1, if_neg hc1, hg1]

end Cfdp

namespace Cfdp

/-- Claim C6: applying any PDU event twice in succession yields the same
terminal gap tracker, assembler (temp-file openness and contents), and
state-machine state as applying it once; in particular
`gap.mark_received` absorbs duplicate and overlapping marks with no change
beyond the first application. -/
theorem c6_pdu_idempotent :
    (∀ (r : Receiver2) (ev : Event), ev ≠ Event.NAK_TIMER_EXPIRED →
      trio (update_state (update_state r ev) ev) = trio (update_state r ev)) ∧
    (∀ (g : GapTracker) (s e : Nat),
      mark_received (mark_received g s e) s e = mark_received g s e) := by
  constructor
  · intro r ev hev
    cases ev with
    | E10_RECEIVED_METADATA_PDU f =>
        cases hst : r.state with
        | S1 =>
            rw [update_S1_metadata r f hst]
            have h2 : (applyMetadata r f).state ≠ .S1 := by
              rcases applyMetadata_state r f with h | h <;> rw [h] <;> simp
            rw [update_metadata_not_S1 _ f h2]
        | S2 =>
            have h := update_metadata_not_S1 r f (by rw [hst]; simp)
            rw [h, h]
        | S3 =>
            have h := update_metadata_not_S1 r f (by rw [hst]; simp)
            rw [h, h]
        | S4 =>
            have h := update_metadata_not_S1 r f (by rw [hst]; simp)
            rw [h, h]
        | S5 =>
            have h := update_metadata_not_S1 r f (by rw [hst]; simp)
            rw [h, h]
    | E11_RECEIVED_FILEDATA_PDU off d =>
        cases hst : r.state with
        | S1 =>
            have hb : ∀ (rr : Receiver2), rr.state = .S1 →
                trio (update_state rr (.E11_RECEIVED_FILEDATA_PDU off d)) = trio rr := by
              intro rr h1
              rw [update_S1_filedata rr off d h1]
              rfl
            rw [update_S1_filedata r off d hst]
            exact hb _ hst
        | S2 =>
            rw [update_S2_filedata r off d hst]
            rcases applyFileData_state r off d with hS | hS
            · have hS2 : (applyFileData r off d).state = .S2 := hS.trans hst
              rcases applyFileData_idem_or_S4 r off d hst with h4 | heq
              · rw [hS2] at h4
                exact absurd h4 (by simp)
              · rw [update_S2_filedata _ off d hS2, heq]
            · rw [update_ignored_S4 _ _ hS (by simp)]
        | S3 =>
            have h := update_ignored_S3 r (.E11_RECEIVED_FILEDATA_PDU off d) hst
            rw [h, h]
        | S4 =>
            have h := update_ignored_S4 r (.E11_RECEIVED_FILEDATA_PDU off d) hst (by simp)
            rw [h, h]
        | S5 =>
            have h := update_ignored_S5 r (.E11_RECEIVED_FILEDATA_PDU off d) hst
            rw [h, h]
    | E12_RECEIVED_EOF_NO_ERROR_PDU c f =>
        cases hst : r.state with
        | S1 =>
            have hb : ∀ (rr : Receiver2), rr.state = .S1 →
                trio (update_state rr (.E12_RECEIVED_EOF_NO_ERROR_PDU c f)) = trio rr := by
              intro rr h1
              rw [update_S1_eof rr c f h1]
              rfl
            rw [update_S1_eof r c f hst]
            exact hb _ hst
        | S2 =>
            rw [update_S2_eof r c f hst]
            rcases applyEof_state r c f with hS | hS
            · have hS2 : (applyEof r c f).state = .S2 := hS.trans hst
              rcases applyEof_idem_or_S4 r c f with h4 | heq
              · rw [hS2] at h4
                exact absurd h4 (by simp)
              · rw [update_S2_eof _ c f hS2, heq]
            · rw [update_ignored_S4 _ _ hS (by simp)]
        | S3 =>
            have h := update_ignored_S3 r (.E12_RECEIVED_EOF_NO_ERROR_PDU c f) hst
            rw [h, h]
        | S4 =>
            have h := update_ignored_S4 r (.E12_RECEIVED_EOF_NO_ERROR_PDU c f) hst (by simp)
            rw [h, h]
        | S5 =>
            have h := update_ignored_S5 r (.E12_RECEIVED_EOF_NO_ERROR_PDU c f) hst
            rw [h, h]
    | E13_RECEIVED_EOF_ERROR_PDU c =>
        cases hst : r.state with
        | S1 =>
            have hb : ∀ (rr : Receiver2), rr.state = .S1 →
                trio (update_state rr (.E13_RECEIVED_EOF_ERROR_PDU c)) = trio rr := by
              intro rr h1
              rw [update_S1_eoferror rr c h1]
              rfl
            rw [update_S1_eoferror r c hst]
            exact hb _ hst
        | S2 =>
            rw [update_S2_eoferror r c hst,
              update_ignored_S4 _ _ (raiseFault_state r c) (by simp)]
        | S3 =>
            have h := update_ignored_S3 r (.E13_RECEIVED_EOF_ERROR_PDU c) hst
            rw [h, h]
        | S4 =>
            have h := update_ignored_S4 r (.E13_RECEIVED_EOF_ERROR_PDU c) hst (by simp)
            rw [h, h]
        | S5 =>
            have h := update_ignored_S5 r (.E13_RECEIVED_EOF_ERROR_PDU c) hst
            rw [h, h]
    | E14_RECEIVED_ACK_FIN_PDU =>
        cases hst : r.state with
        | S1 =>
            have h := update_S1_ack r hst
            rw [h, h]
        | S2 =>
            have h := update_S2_ack r hst
            rw [h, h]
        | S3 =>
            have h := update_ignored_S3 r Event.E14_RECEIVED_ACK_FIN_PDU hst
            rw [h, h]
        | S4 =>
            rw [update_S4_ack r hst, update_ignored_S5 _ _ (enter_state r .S5)]
        | S5 =>
            have h := update_ignored_S5 r Event.E14_RECEIVED_ACK_FIN_PDU hst
            rw [h, h]
    | NAK_TIMER_EXPIRED => exact absurd rfl hev
  · exact mark_received_idem

/-- Witness for claim C6: a duplicated file-data PDU delivered to a fresh
receiver. -/
theorem c6_witness :
    ((Event.E11_RECEIVED_FILEDATA_PDU 0 [7]) ≠ Event.NAK_TIMER_EXPIRED) ∧
    trio (update_state (update_state (initReceiver 1)
        (.E11_RECEIVED_FILEDATA_PDU 0 [7])) (.E11_RECEIVED_FILEDATA_PDU 0 [7]))
      = trio (update_state (initReceiver 1) (.E11_RECEIVED_FILEDATA_PDU 0 [7])) :=
  ⟨by decide, c6_pdu_idempotent.1 (initReceiver 1)
    (.E11_RECEIVED_FILEDATA_PDU 0 [7]) (by decide)⟩

end Cfdp

namespace Cfdp

/-- Claim C7: while the gap set stays non-empty and no file-data arrives
between firings, each NAK timer firing emits a NAK with the same segment
requests as the previous one; and once the number of NAK transmissions
exceeds `nak_limit`, the receiver raises `NAK_LIMIT_REACHED` and sends
Finished(INCOMPLETE, NAK_LIMIT_REACHED). -/
theorem c7_nak_repeat_and_limit (r : Receiver2) (h2 : r.state = .S2)
    (hne : r.gap.gaps ≠ []) :
    (r.nak_count + 2 ≤ r.nak_limit →
      (update_state r .NAK_TIMER_EXPIRED).emitted
        = r.emitted ++ [.NAK 0 (bound r.gap) (missing r.gap)] ∧
      (update_state r .NAK_TIMER_EXPIRED).state = .S2 ∧
      (update_state r .NAK_TIMER_EXPIRED).gap = r.gap ∧
      (update_state (update_state r .NAK_TIMER_EXPIRED) .NAK_TIMER_EXPIRED).emitted
        = (update_state r .NAK_TIMER_EXPIRED).emitted ++
            [.NAK 0 (bound r.gap) (missing r.gap)]) ∧
    (r.nak_limit < r.nak_count + 1 →
      (update_state r .NAK_TIMER_EXPIRED).fault = some .NAK_LIMIT_REACHED ∧
      (update_state r .NAK_TIMER_EXPIRED).emitted
        = r.emitted ++ [.NAK 0 (bound r.gap) (missing r.gap),
            .Finished .NAK_LIMIT_REACHED .INCOMPLETE]) := by
  constructor
  · intro hlim
    rw [update_S2_naktimer r h2, applyNakTimer_within r hne (by omega)]
    set r1 : Receiver2 :=
      { r with emitted := r.emitted ++ [.NAK 0 (bound r.gap) (missing r.gap)]
               nak_count := r.nak_count + 1 } with hr1
    have h1st : r1.state = .S2 := h2
    refine ⟨rfl, h1st, rfl, ?_⟩
    rw [update_S2_naktimer r1 h1st, applyNakTimer_within r1 hne (by
      show r.nak_count + 1 + 1 ≤ r.nak_limit
      omega)]
  · intro hlim
    rw [update_S2_naktimer r h2, applyNakTimer_exceed r hne hlim]
    refine ⟨rfl, ?_⟩
    show (r.emitted ++ [OutPdu.NAK 0 (bound r.gap) (missing r.gap)]) ++
        [OutPdu.Finished .NAK_LIMIT_REACHED .INCOMPLETE] = _
    rw [List.append_assoc]
    rfl

/-- Witness for claim C7: the sample receiver with one outstanding gap,
no NAK sent yet, and limit 2, so two timer firings stay within the limit. -/
theorem c7_witness :
    (sampleReceiver.state = .S2) ∧ (sampleReceiver.gap.gaps ≠ []) ∧
    ((sampleReceiver.nak_count + 2 ≤ sampleReceiver.nak_limit →
      (update_state sampleReceiver .NAK_TIMER_EXPIRED).emitted
        = sampleReceiver.emitted ++
            [.NAK 0 (bound sampleReceiver.gap) (missing sampleReceiver.gap)] ∧
      (update_state sampleReceiver .NAK_TIMER_EXPIRED).state = .S2 ∧
      (update_state sampleReceiver .NAK_TIMER_EXPIRED).gap = sampleReceiver.gap ∧
      (update_state (update_state sampleReceiver .NAK_TIMER_EXPIRED)
          .NAK_TIMER_EXPIRED).emitted
        = (update_state sampleReceiver .NAK_TIMER_EXPIRED).emitted ++
            [.NAK 0 (bound sampleReceiver.gap) (missing sampleReceiver.gap)]) ∧
    (sampleReceiver.nak_limit < sampleReceiver.nak_count + 1 →
      (update_state sampleReceiver .NAK_TIMER_EXPIRED).fault
          = some .NAK_LIMIT_REACHED ∧
      (update_state sampleReceiver .NAK_TIMER_EXPIRED).emitted
        = sampleReceiver.emitted ++
            [.NAK 0 (bound sampleReceiver.gap) (missing sampleReceiver.gap),
              .Finished .NAK_LIMIT_REACHED .INCOMPLETE])) :=
  ⟨rfl, by decide, c7_nak_repeat_and_limit sampleReceiver rfl (by decide)⟩

end Cfdp

namespace Sle

/-- Claim C9: each SLE PDU type redefined in raf.py under a name already
defined in common.py - ReportingCycle, ReportRequestType and
SleStopInvocation - is structurally identical to its common.py
counterpart (same component types, same implicit tags, same value
constraints), so the two definitions accept exactly the same values. -/
theorem c9_raf_redefinitions_structural :
    commonReportingCycle = rafReportingCycle ∧
    commonReportRequestType = rafReportRequestType ∧
    commonSleStopInvocation = rafSleStopInvocation ∧
    (∀ v, accepts commonReportingCycle v = accepts rafReportingCycle v) ∧
    (∀ v, accepts commonReportRequestType v = accepts rafReportRequestType v) ∧
    (∀ v, accepts commonSleStopInvocation v = accepts rafSleStopInvocation v) :=
  ⟨rfl, rfl, rfl, fun _ => rfl, fun _ => rfl, fun _ => rfl⟩

/-- Claim C10: every value of the Time choice type is an octet string of
exactly 8 octets under the ccsdsFormat alternative or exactly 10 octets
under the ccsdsPicoFormat alternative, and every ConditionalTime value is
either the undefined null or such a Time value. -/
theorem c10_time_value_shapes :
    (∀ v, accepts Time v = true →
      (∃ bs, v = .chosenV "ccsdsFormat" (.octetsV bs) ∧ bs.length = 8) ∨
      (∃ bs, v = .chosenV "ccsdsPicoFormat" (.octetsV bs) ∧ bs.length = 10)) ∧
    (∀ v, accepts ConditionalTime v = true →
      v = .chosenV "undefined" .nullV ∨
      (∃ t, v = .chosenV "known" t ∧ accepts Time t = true)) := by
  constructor
  · intro v h
    cases v with
    | chosenV name w =>
        simp only [Time, TimeCCSDS, TimeCCSDSpico, accepts, Bool.or_eq_true,
          Bool.and_eq_true, decide_eq_true_eq] at h
        rcases h with ⟨hn, hw⟩ | ⟨hn, hw⟩ | h
        · subst hn
          left
          cases w with
          | octetsV bs =>
              simp only [accepts, Bool.and_eq_true, decide_eq_true_eq] at hw
              exact ⟨bs, rfl, by omega⟩
          | nullV => simp [accepts] at hw
          | intV i => simp [accepts] at hw
          | chosenV n2 w2 => simp [accepts] at hw
          | seqNilV => simp [accepts] at hw
          | seqConsV a b => simp [accepts] at hw
        · subst hn
          right
          cases w with
          | octetsV bs =>
              simp only [accepts, Bool.and_eq_true, decide_eq_true_eq] at hw
              exact ⟨bs, rfl, by omega⟩
          | nullV => simp [accepts] at hw
          | intV i => simp [accepts] at hw
          | chosenV n2 w2 => simp [accepts] at hw
          | seqNilV => simp [accepts] at hw
          | seqConsV a b => simp [accepts] at hw
        · simp [accepts] at h
    | nullV => simp [Time, accepts] at h
    | intV i => simp [Time, accepts] at h
    | octetsV bs => simp [Time, accepts] at h
    | seqNilV => simp [Time, accepts] at h
    | seqConsV a b => simp [Time, accepts] at h
  · intro v h
    cases v with
    | chosenV name w =>
        simp only [ConditionalTime, accepts, Bool.or_eq_true,
          Bool.and_eq_true, decide_eq_true_eq] at h
        rcases h with ⟨hn, hw⟩ | ⟨hn, hw⟩ | h
        · subst hn
          left
          cases w with
          | nullV => rfl
          | intV i => simp [accepts] at hw
          | octetsV bs => simp [accepts] at hw
          | chosenV n2 w2 => simp [accepts] at hw
          | seqNilV => simp [accepts] at hw
          | seqConsV a b => simp [accepts] at hw
        · subst hn
          right
          exact ⟨w, rfl, hw⟩
        · simp [accepts] at h
    | nullV => simp [ConditionalTime, accepts] at h
    | intV i => simp [ConditionalTime, accepts] at h
    | octetsV bs => simp [ConditionalTime, accepts] at h
    | seqNilV => simp [ConditionalTime, accepts] at h
    | seqConsV a b => simp [ConditionalTime, accepts] at h

/-- Witness for claim C10: an 8-octet ccsdsFormat time and a
ConditionalTime wrapping it as the known alternative. -/
theorem c10_witness :
    accepts Time (.chosenV "ccsdsFormat" (.octetsV [0, 0, 0, 0, 0, 0, 0, 0])) = true ∧
    ((∃ bs, (Asn1Value.chosenV "ccsdsFormat" (.octetsV [0, 0, 0, 0, 0, 0, 0, 0]))
        = .chosenV "ccsdsFormat" (.octetsV bs) ∧ bs.length = 8) ∨
     (∃ bs, (Asn1Value.chosenV "ccsdsFormat" (.octetsV [0, 0, 0, 0, 0, 0, 0, 0]))
        = .chosenV "ccsdsPicoFormat" (.octetsV bs) ∧ bs.length = 10)) ∧
    accepts ConditionalTime
      (.chosenV "known" (.chosenV "ccsdsFormat" (.octetsV [0, 0, 0, 0, 0, 0, 0, 0])))
      = true ∧
    ((Asn1Value.chosenV "known" (.chosenV "ccsdsFormat" (.octetsV [0, 0, 0, 0, 0, 0, 0, 0])))
        = .chosenV "undefined" .nullV ∨
     (∃ t, (Asn1Value.chosenV "known"
          (.chosenV "ccsdsFormat" (.octetsV [0, 0, 0, 0, 0, 0, 0, 0])))
        = .chosenV "known" t ∧ accepts Time t = true)) :=
  ⟨by decide, c10_time_value_shapes.1 _ (by decide),
   by decide, c10_time_value_shapes.2 _ (by decide)⟩

end Sle
